import Mathlib

/-!
Verification of the CodeRAG retrieval-augmented code-explanation backend.

The development shallowly embeds the core services of the backend
(`llm_service`, `parser_service`, `embedding_service`, `session_service`,
`vector_service`, `rag_service`) as executable Lean definitions and proves
the specified contracts about them.  Python strings become `String`, machine
floats used only for distances become `ℚ` (exact arithmetic; only ordering
and zero-tests matter to the claims) or `ℝ` where a Euclidean norm is
needed, fallible code returns `Except`, and stateful code threads its state
explicitly.  External collaborators (the CPython `ast` parser, the regex
engine, the OpenRouter HTTP client, Redis, ChromaDB, the sentence
transformer) enter as explicitly modelled inputs and parameters, each noted at
its definition.
-/

set_option autoImplicit false

namespace CodeRAG

/-! ## Python string primitives

All of them are written by structural recursion over the character list of
the string, so that concrete witnesses evaluate inside the kernel.  Python
indexes strings by code point, which `List Char` matches exactly. -/

/-- Python `str.lower()` (ASCII view, which is all the code compares). -/
def strLower (s : String) : String := String.mk (s.data.map Char.toLower)

/-- Auxiliary substring test on character lists: does `pat` occur
contiguously inside `hay`?  Models the Python `pat in hay` operator. -/
def listHasSub (hay pat : List Char) : Bool :=
  match hay with
  | [] => pat.isEmpty
  | _ :: t => pat.isPrefixOf hay || listHasSub t pat

/-- Python `pat in hay` on strings. -/
def strHasSub (hay pat : String) : Bool := listHasSub hay.data pat.data

/-- Python `str.join`: `pyJoin sep parts` interleaves `sep` between the
parts. -/
def pyJoin (sep : String) : List String → String
  | [] => ""
  | [p] => p
  | p :: rest => p ++ sep ++ pyJoin sep rest

/-- Python slicing `s[:n]` on a string. -/
def pyTake (n : Nat) (s : String) : String := String.mk (s.data.take n)

/-- Python slicing `s[n:]` on a string. -/
def pyDrop (n : Nat) (s : String) : String := String.mk (s.data.drop n)

/-- Python `str.capitalize()`: first character upper-cased, the rest
lower-cased. -/
def pyCapitalize (s : String) : String :=
  match s.data with
  | [] => ""
  | c :: rest => String.mk (Char.toUpper c :: rest.map Char.toLower)

/-- Count the newline characters of a character list (Python
`s.count("\n")` applied to the prefix the code slices off). -/
def countNl (l : List Char) : Nat := l.countP (fun c => c = '\n')

/-- Split a character list at newline characters (every `\n` terminates a
piece; the final piece has no terminator). -/
def splitNl : List Char → List (List Char)
  | [] => [[]]
  | c :: rest =>
    if c = '\n' then [] :: splitNl rest
    else
      match splitNl rest with
      | [] => [[c]]
      | p :: ps => (c :: p) :: ps

/-- Python `str.splitlines()` restricted to `\n` newlines (the only line
separator occurring in the inputs this repository handles): the empty
string yields no lines, and a trailing newline does not open an extra
empty line. -/
def pySplitlines (s : String) : List String :=
  if s = "" then []
  else if s.data.getLast? = some '\n' then (splitNl s.data).dropLast.map String.mk
  else (splitNl s.data).map String.mk

/-! ## Exceptions (src/backend/app/core/exceptions.py)

The hierarchy is flattened into one inductive: each constructor keeps the
message that `str(e)` would produce, which is all the code inspects. -/

/-- Decidable equality on `Except`, for concrete evaluation of witnesses. -/
instance exceptDecEq {ε α : Type} [DecidableEq ε] [DecidableEq α] :
    DecidableEq (Except ε α) := fun a b =>
  match a, b with
  | .ok x, .ok y =>
    if h : x = y then .isTrue (by rw [h]) else .isFalse (by simp [h])
  | .error x, .error y =>
    if h : x = y then .isTrue (by rw [h]) else .isFalse (by simp [h])
  | .ok _, .error _ => .isFalse (by simp)
  | .error _, .ok _ => .isFalse (by simp)

inductive PyExc where
  /-- `httpx.TimeoutException` with its message. -/
  | httpxTimeout (msg : String)
  /-- `httpx.NetworkError` with its message. -/
  | httpxNetwork (msg : String)
  /-- `LLMException`. -/
  | llmException (msg : String)
  /-- `EmbeddingException`. -/
  | embeddingException (msg : String)
  /-- `VectorDBException`. -/
  | vectorDBException (msg : String)
  /-- `SessionNotFoundException`. -/
  | sessionNotFound (sessionId : String)
  /-- Any other Python exception, abstracted to its message. -/
  | pyError (msg : String)
deriving Repr, DecidableEq

/-- Python `str(e)` for the modelled exceptions.  `CodeRAGException` passes
its message to `Exception.__init__`, so `str` returns it verbatim;
`SessionNotFoundException` builds the message from the session id. -/
def PyExc.message : PyExc → String
  | .httpxTimeout m => m
  | .httpxNetwork m => m
  | .llmException m => m
  | .embeddingException m => m
  | .vectorDBException m => m
  | .sessionNotFound sid => "Session not found: " ++ sid
  | .pyError m => m

/-- Python `str(last_error)` where `last_error` may still be `None`. -/
def optExcStr : Option PyExc → String
  | none => "None"
  | some e => e.message

/-! ## LLM service (src/backend/app/services/llm_service.py)

The OpenRouter chat-completion call behind
`self.client.chat.completions.create` is the external collaborator; it is
modelled as a function from the invocation index to an outcome, so that the
number of underlying HTTP calls an operation performs is observable. -/

/-- Token usage extracted from a chat completion response. -/
structure TokenUsage where
  promptTokens : Nat
  completionTokens : Nat
  totalTokens : Nat
deriving Repr, DecidableEq

/-- Result dictionary assembled by `_call_model` on success: content,
token usage, and the optional cost header. -/
structure LLMCallResult where
  content : String
  tokens : Option TokenUsage
  cost : Option ℚ
deriving Repr, DecidableEq

/-- Outcome of one underlying provider (OpenRouter) invocation, as the
external client surfaces it to `_call_model`'s `try` block: the outcome of
the `attempt`-th invocation for a given model identifier. -/
abbrev Provider := String → Nat → Except PyExc LLMCallResult

/-- Error classification at the bottom of `_call_model`: every exception
`e` raised inside the `try` block is caught by `except Exception` and
re-raised as an `LLMException` chosen by substring tests on
`str(e).lower()`. -/
def classifyCallError (model : String) (e : PyExc) : PyExc :=
  if strHasSub (strLower e.message) "insufficient_quota" then
    .llmException "Insufficient quota on OpenRouter account"
  else if strHasSub (strLower e.message) "rate_limit" then
    .llmException "Rate limit exceeded, please try again later"
  else if strHasSub (strLower e.message) "model_not_found" then
    .llmException ("Model not found: " ++ model)
  else
    .llmException ("LLM request failed: " ++ e.message)

/-- Body of `_call_model` (one attempt): invoke the provider and, on any
exception, classify and re-raise as `LLMException`.  `attempt` is the
attempt index handed to the provider model. -/
def callModelBody (provider : Provider) (model : String) (attempt : Nat) :
    Except PyExc LLMCallResult :=
  match provider model attempt with
  | .ok r => .ok r
  | .error e => .error (classifyCallError model e)

/-- Retry predicate of the tenacity decorator on `_call_model`:
`retry_if_exception_type((httpx.TimeoutException, httpx.NetworkError))`. -/
def isRetryableExc : PyExc → Bool
  | .httpxTimeout _ => true
  | .httpxNetwork _ => true
  | _ => false

/-- The tenacity `@retry(stop=stop_after_attempt(3), ...)` wrapper around
`_call_model`: run the body; if it raises an exception matching the retry
predicate and attempts remain, wait with exponential backoff (time is not
modelled) and run it again, else propagate.  Returns the outcome together
with the number of underlying provider invocations performed so far. -/
def callModelAttempts (provider : Provider) (model : String) :
    Nat → Nat → Except PyExc LLMCallResult × Nat
  | attempt, 0 => (callModelBody provider model attempt, attempt + 1)
  | attempt, n + 1 =>
    match callModelBody provider model attempt with
    | .ok r => (.ok r, attempt + 1)
    | .error e =>
      if isRetryableExc e then callModelAttempts provider model (attempt + 1) n
      else (.error e, attempt + 1)

/-- `_call_model` with its decorator: at most 3 attempts
(`stop_after_attempt(3)`).  The second component is the number of
underlying provider invocations actually made. -/
def callModel (provider : Provider) (model : String) :
    Except PyExc LLMCallResult × Nat :=
  callModelAttempts provider model 0 2

/-- Result dictionary of `generate_explanation`. -/
structure ExplainResult where
  answer : String
  modelUsed : String
  tokens : Option TokenUsage
  cost : Option ℚ
deriving Repr, DecidableEq

/-- Python truthiness of the optional `model` argument (`None` and the
empty string are falsy). -/
def optStrTruthy : Option String → Bool
  | none => false
  | some s => !(s = "")

/-- Python `model or self.default_model`. -/
def pyOrStr (m : Option String) (d : String) : String :=
  match m with
  | none => d
  | some s => if s = "" then d else s

/-- The ordered model list built by `generate_explanation`:
`[model or default]`, extended with the fallback list when fallback is
enabled and no model was explicitly given. -/
def modelsToTry (model : Option String) (defaultModel : String)
    (fallbackModels : List String) (enableFallback : Bool) : List String :=
  let base := [pyOrStr model defaultModel]
  if enableFallback && !optStrTruthy model then base ++ fallbackModels
  else base

/-- The fallback loop of `generate_explanation`: attempt each model in
order through `_call_model`; the first success is packaged and returned;
when the list is exhausted, raise `LLMException` carrying the last error. -/
def tryModels (provider : Provider) (lastError : Option PyExc) :
    List String → Except PyExc ExplainResult
  | [] =>
    .error (.llmException ("All models failed. Last error: " ++ optExcStr lastError))
  | m :: rest =>
    match (callModel provider m).1 with
    | .ok r =>
      .ok { answer := r.content, modelUsed := m, tokens := r.tokens, cost := r.cost }
    | .error e => tryModels provider (some e) rest

/-- `generate_explanation` (model-selection and fallback part; the prompt
construction does not influence which models are attempted). -/
def generateExplanation (provider : Provider) (model : Option String)
    (defaultModel : String) (fallbackModels : List String)
    (enableFallback : Bool) : Except PyExc ExplainResult :=
  tryModels provider none
    (modelsToTry model defaultModel fallbackModels enableFallback)

/-! ## Parser service (src/backend/app/services/parser_service.py) -/

/-- A parsed code chunk, as constructed by `CodeChunk.__init__`. -/
structure CodeChunk where
  id : String
  type : String
  name : String
  code : String
  file_path : String
  start_line : Nat
  end_line : Nat
  language : String
  docstring : String
  imports : List String
deriving Repr, DecidableEq

/-- `get_context_text`: the text representation with context handed to the
embedding step. -/
def get_context_text (c : CodeChunk) : String :=
  let context_parts := ["File: " ++ c.file_path,
                        "Language: " ++ c.language,
                        pyCapitalize c.type ++ ": " ++ c.name]
  let context_parts :=
    if c.docstring = "" then context_parts
    else context_parts ++ ["Documentation: " ++ c.docstring]
  pyJoin "\n" (context_parts ++ ["Code:\n" ++ c.code])

/-- Zero-padded six-digit counter rendering, Python `f"{n:06d}"` for the
counter values arising here. -/
def pad6 (n : Nat) : String :=
  let s := toString n
  String.mk (List.replicate (6 - s.length) '0') ++ s

/-- `_create_chunk`: increments the parser's chunk counter and assembles a
`CodeChunk` whose id is `chunk_{counter:06d}`. -/
def createChunk (counter : Nat) (type name code file_path : String)
    (start_line end_line : Nat) (language docstring : String) : CodeChunk × Nat :=
  ({ id := "chunk_" ++ pad6 (counter + 1), type := type, name := name,
     code := code, file_path := file_path, start_line := start_line,
     end_line := end_line, language := language, docstring := docstring,
     imports := [] }, counter + 1)

/-- Python slicing `l[a:b]` for non-negative bounds. -/
def pySlice {α : Type} (l : List α) (a b : Nat) : List α := (l.drop a).take (b - a)

/-- Python `range(0, stop, step)` for a positive step; the parser only uses
it with the configured positive chunk size (`max_chunk_size = 1000`), so a
zero step (a `ValueError` in Python) is mapped to the empty range. -/
def pyRangeStep (stop step : Nat) : List Nat :=
  if step = 0 then []
  else (List.range ((stop + step - 1) / step)).map (fun j => j * step)

/-- Node kinds of the CPython `ast` nodes the parser discriminates on. -/
inductive PyNodeKind where
  | functionDef
  | asyncFunctionDef
  | classDef
  | otherNode
deriving Repr, DecidableEq

/-- Model of a CPython `ast` node as produced by `ast.parse` (the external
parser): location attributes, declared name, the docstring that
`ast.get_docstring` would extract, and child nodes.  Only the attributes
the chunker reads are kept. -/
inductive PyNode where
  | node (kind : PyNodeKind) (name : String) (lineno : Nat)
      (endLineno : Option Nat) (doc : Option String) (body : List PyNode)

/-- Kind of a node. -/
def PyNode.kind : PyNode → PyNodeKind
  | .node k _ _ _ _ _ => k

/-- Declared name of a node. -/
def PyNode.name : PyNode → String
  | .node _ n _ _ _ _ => n

/-- `node.lineno` (1-based first line, guaranteed positive by CPython). -/
def PyNode.lineno : PyNode → Nat
  | .node _ _ l _ _ _ => l

/-- `node.end_lineno` (maybe absent). -/
def PyNode.endLineno : PyNode → Option Nat
  | .node _ _ _ e _ _ => e

/-- Docstring that `ast.get_docstring(node)` yields (`None` when absent). -/
def PyNode.doc : PyNode → Option String
  | .node _ _ _ _ d _ => d

/-- Child nodes (`ast.iter_child_nodes`). -/
def PyNode.body : PyNode → List PyNode
  | .node _ _ _ _ _ b => b

mutual

/-- Structural size of a node, for termination of the tree walk. -/
def pySize : PyNode → Nat
  | .node _ _ _ _ _ body => 1 + pySizeL body

/-- Structural size of a node list. -/
def pySizeL : List PyNode → Nat
  | [] => 0
  | n :: rest => pySize n + pySizeL rest

end

/-- `ast.walk` restricted to a forest: breadth-first traversal yielding
every node of every tree (CPython implements it with a FIFO deque seeded
with the root).  Applied to a module's statement list it enumerates all
nodes at all nesting depths. -/
def pyWalk : List PyNode → List PyNode
  | [] => []
  | n :: rest => n :: pyWalk (rest ++ n.body)
termination_by l => pySizeL l
decreasing_by
  have happ : ∀ (a b : List PyNode), pySizeL (a ++ b) = pySizeL a + pySizeL b := by
    intro a b
    induction a with
    | nil => simp [pySizeL]
    | cons x xs ih => simp [pySizeL, ih]; omega
  cases n with
  | node k nm l e d body =>
    rw [happ]
    have h1 : pySize (PyNode.node k nm l e d body) = 1 + pySizeL body := by
      simp [pySize]
    have h2 : (PyNode.node k nm l e d body).body = body := rfl
    simp only [pySizeL, h1, h2]
    omega

/-- Python `node.end_lineno or start_line` (falsy means `None` or `0`). -/
def pyNodeEnd (n : PyNode) : Nat :=
  match n.endLineno with
  | none => n.lineno
  | some e => if e = 0 then n.lineno else e

/-- `_parse_python_function`: chunk for one `ast.FunctionDef` node. -/
def parsePythonFunction (n : PyNode) (lines : List String) (file_path : String)
    (counter : Nat) : CodeChunk × Nat :=
  let start_line := n.lineno
  let end_line := pyNodeEnd n
  let code := pyJoin "\n" (pySlice lines (start_line - 1) end_line)
  createChunk counter "function" n.name code file_path start_line end_line
    "python" (n.doc.getD "")

/-- `_parse_python_class`: chunk for one `ast.ClassDef` node. -/
def parsePythonClass (n : PyNode) (lines : List String) (file_path : String)
    (counter : Nat) : CodeChunk × Nat :=
  let start_line := n.lineno
  let end_line := pyNodeEnd n
  let code := pyJoin "\n" (pySlice lines (start_line - 1) end_line)
  createChunk counter "class" n.name code file_path start_line end_line
    "python" (n.doc.getD "")

/-- The dispatch loop of `parse_python_file` over the walked nodes:
`isinstance(node, ast.FunctionDef)` emits a function chunk,
`isinstance(node, ast.ClassDef)` a class chunk, everything else (async
function definitions included) is skipped. -/
def emitPythonDefs (lines : List String) (file_path : String) :
    List PyNode → Nat → List CodeChunk × Nat
  | [], counter => ([], counter)
  | n :: rest, counter =>
    match n.kind with
    | .functionDef =>
      let p := parsePythonFunction n lines file_path counter
      let q := emitPythonDefs lines file_path rest p.2
      (p.1 :: q.1, q.2)
    | .classDef =>
      let p := parsePythonClass n lines file_path counter
      let q := emitPythonDefs lines file_path rest p.2
      (p.1 :: q.1, q.2)
    | _ => emitPythonDefs lines file_path rest counter

/-- `parse_python_file` after the file has been read: `content` is the file
text, `tree` the statement list of the module `ast.parse` returned (`none`
models a `SyntaxError`, which the code catches, leaving the chunk list
empty), `relative_path` the `os.path.relpath` result and `stem` the file
stem.  Emits the module-level chunk followed by one chunk per
`FunctionDef`/`ClassDef` node encountered by `ast.walk`. -/
def parsePythonFile (content : String) (tree : Option (List PyNode))
    (relative_path stem : String) (counter : Nat) : List CodeChunk × Nat :=
  match tree with
  | none => ([], counter)
  | some body =>
    let lines := pySplitlines content
    let p := createChunk counter "module" stem (pyTake 1000 content)
      relative_path 1 lines.length "python" ""
    let q := emitPythonDefs lines relative_path (pyWalk body) p.2
    (p.1 :: q.1, q.2)

/-- One `re.finditer` match of the JavaScript function-declaration pattern,
as the external regex engine reports it: `match.start()`, `match.end()`
and the captured function name `match.group(1)`. -/
structure ReMatch where
  matchStart : Nat
  matchEnd : Nat
  group1 : String
deriving Repr, DecidableEq

/-- The brace-matching loop of `parse_javascript_file`: starting just
after the opening brace with depth 1, scan forward adjusting the depth at
every brace until it returns to zero or the text ends; returns the final
scan position. -/
def braceScanAux : List Char → Nat → Nat → Nat
  | [], pos, _ => pos
  | c :: rest, pos, braceCount =>
    if braceCount = 0 then pos
    else braceScanAux rest (pos + 1)
      (if c = Char.ofNat 123 then braceCount + 1
       else if c = Char.ofNat 125 then braceCount - 1 else braceCount)

/-- Chunk built for one regex match inside `parse_javascript_file`. -/
def jsFunctionChunk (content : String) (lines : List String)
    (relative_path language : String) (m : ReMatch) (counter : Nat) :
    CodeChunk × Nat :=
  let start_line := countNl (content.data.take m.matchStart) + 1
  let pos := braceScanAux (content.data.drop m.matchEnd) m.matchEnd 1
  let end_line := countNl (content.data.take pos) + 1
  let code := pyJoin "\n" (pySlice lines (start_line - 1) end_line)
  createChunk counter "function" m.group1 code relative_path start_line
    end_line language ""

/-- The match loop of `parse_javascript_file`. -/
def emitJsChunks (content : String) (lines : List String)
    (relative_path language : String) :
    List ReMatch → Nat → List CodeChunk × Nat
  | [], counter => ([], counter)
  | m :: rest, counter =>
    let p := jsFunctionChunk content lines relative_path language m counter
    let q := emitJsChunks content lines relative_path language rest p.2
    (p.1 :: q.1, q.2)

/-- `parse_javascript_file` after the file has been read: `matches` are the
`re.finditer` results of the function-declaration pattern over `content`
(the regex engine is external).  Emits one approximate chunk per match and
then a truncated module-level chunk. -/
def parseJavascriptFile (content : String) (regexMatches : List ReMatch)
    (relative_path stem : String) (isTypescript : Bool) (counter : Nat) :
    List CodeChunk × Nat :=
  let lines := pySplitlines content
  let language := if isTypescript then "typescript" else "javascript"
  let p := emitJsChunks content lines relative_path language regexMatches counter
  let q := createChunk p.2 "module" stem (pyTake 1000 content) relative_path
    1 lines.length language ""
  (p.1 ++ [q.1], q.2)

/-- One fixed-size window chunk of `parse_generic_file`. -/
def genericWindowChunk (content : String) (chunk_size : Nat)
    (relative_path stem language : String) (i : Nat) (counter : Nat) :
    CodeChunk × Nat :=
  let chunk_content := String.mk (pySlice content.data i (i + chunk_size))
  let start_line := countNl (content.data.take i) + 1
  let end_line := countNl (content.data.take (i + chunk_content.length)) + 1
  createChunk counter "module" (stem ++ "_part_" ++ toString (i / chunk_size + 1))
    chunk_content relative_path start_line end_line language ""

/-- The window loop of `parse_generic_file`. -/
def emitGenericChunks (content : String) (chunk_size : Nat)
    (relative_path stem language : String) :
    List Nat → Nat → List CodeChunk × Nat
  | [], counter => ([], counter)
  | i :: rest, counter =>
    let p := genericWindowChunk content chunk_size relative_path stem language i counter
    let q := emitGenericChunks content chunk_size relative_path stem language rest p.2
    (p.1 :: q.1, q.2)

/-- `parse_generic_file` after the file has been read: split the text into
`chunk_size`-character windows (`settings.max_chunk_size`), one
module-kind chunk per window. -/
def parseGenericFile (content relative_path stem ext : String)
    (chunk_size : Nat) (counter : Nat) : List CodeChunk × Nat :=
  let language := if ext = "" then "unknown" else pyDrop 1 ext
  emitGenericChunks content chunk_size relative_path stem language
    (pyRangeStep content.length chunk_size) counter

/-! ## Embedding service (src/backend/app/services/embedding_service.py) -/

/-- An embedding vector.  Exact rationals stand in for the floats; only
ordering and zero tests reach the claims. -/
abbrev Vec := List ℚ

/-- The external sentence-transformer `model.encode`, batched. -/
abbrev Encoder := List String → Except PyExc (List Vec)

/-- `generate_embeddings`: empty input short-circuits to an empty output
without invoking the model; otherwise every chunk's context text is
truncated to 2000 characters and handed to the encoder in one batch, and
any model error is re-raised as an `EmbeddingException`. -/
def generate_embeddings (encode : Encoder) (chunks : List CodeChunk) :
    Except PyExc (List Vec) :=
  if chunks.isEmpty then .ok []
  else
    let texts := chunks.map (fun c => get_context_text c)
    let truncated := texts.map (fun t => pyTake 2000 t)
    match encode truncated with
    | .ok es => .ok es
    | .error e => .error (.embeddingException ("Failed to generate embeddings: " ++ e.message))

/-- Squared entries summed: `‖v‖²` of a real vector, the square of
`np.linalg.norm`. -/
def normSq (v : List ℝ) : ℝ := (v.map (fun x => x * x)).sum

/-- Dot product `np.dot` of two real vectors. -/
def dotR (a b : List ℝ) : ℝ := ((a.zip b).map (fun p => p.1 * p.2)).sum

/-- `np.linalg.norm`: the Euclidean norm.  The numpy floats are modelled
by exact reals, which keeps the guard structure (division by a possibly
zero norm) intact while ignoring rounding. -/
noncomputable def pyNorm (v : List ℝ) : ℝ := Real.sqrt (normSq v)

/-- `emb / np.linalg.norm(emb)` for one vector, as `normalize_embeddings`
computes it elementwise — no guard against a zero norm. -/
noncomputable def normalizeVec (v : List ℝ) : List ℝ :=
  v.map (fun x => x / pyNorm v)

/-- `normalize_embeddings`. -/
noncomputable def normalize_embeddings (embs : List (List ℝ)) : List (List ℝ) :=
  embs.map normalizeVec

/-- `cosine_similarity`: dot product over the product of the norms — no
guard against zero norms. -/
noncomputable def cosine_similarity (a b : List ℝ) : ℝ :=
  dotR a b / (pyNorm a * pyNorm b)

/-! ## Session service (src/backend/app/services/session_service.py) -/

/-- A JSON-object session record, modelled as a Python dict from field
names to (serialized) values. -/
abbrev PyDict := List (String × String)

/-- Set one key of a dict (`d[k] = v`): replace the existing binding or
append a fresh one. -/
def dictSet : PyDict → String → String → PyDict
  | [], k, v => [(k, v)]
  | (k', v') :: rest, k, v =>
    if k' = k then (k, v) :: rest else (k', v') :: dictSet rest k v

/-- Python `d.update(u)`: fold the updates into the dict, later bindings
winning. -/
def dictUpdate (d u : PyDict) : PyDict :=
  u.foldl (fun acc p => dictSet acc p.1 p.2) d

/-- Dict lookup. -/
def dictGet : PyDict → String → Option String
  | [], _ => none
  | (k', v) :: rest, k => if k' = k then some v else dictGet rest k

/-- One Redis value together with the TTL it was last set with.  A key
absent from the store is indistinguishable from one that expired. -/
structure RedisEntry where
  value : PyDict
  ttl : Nat
deriving Repr, DecidableEq

/-- The Redis key space (model of the external store). -/
abbrev RedisStore := List (String × RedisEntry)

/-- Redis `GET`. -/
def redisGet : RedisStore → String → Option RedisEntry
  | [], _ => none
  | (k', e) :: rest, k => if k' = k then some e else redisGet rest k

/-- Redis `SETEX`: store the value under the key with a fresh TTL. -/
def redisSetex : RedisStore → String → Nat → PyDict → RedisStore
  | [], k, ttl, v => [(k, { value := v, ttl := ttl })]
  | (k', e) :: rest, k, ttl, v =>
    if k' = k then (k, { value := v, ttl := ttl }) :: rest
    else (k', e) :: redisSetex rest k ttl v

/-- `get_session`: fetch and deserialize the record, raising
`SessionNotFoundException` when the key is gone. -/
def get_session (store : RedisStore) (session_id : String) : Except PyExc PyDict :=
  match redisGet store ("session:" ++ session_id) with
  | none => .error (.sessionNotFound session_id)
  | some e => .ok e.value

/-- `update_session`: read-modify-write — fetch the record (propagating
`SessionNotFoundException`), merge the updates, overwrite `last_activity`
with the current time (`now` models `datetime.now().isoformat()`), and
`SETEX` it back with the full configured `session_ttl`. -/
def update_session (store : RedisStore) (session_ttl : Nat) (now : String)
    (session_id : String) (updates : PyDict) : Except PyExc RedisStore :=
  match get_session store session_id with
  | .error e => .error e
  | .ok session_data =>
    let merged := dictUpdate session_data updates
    let stamped := dictSet merged "last_activity" now
    .ok (redisSetex store ("session:" ++ session_id) session_ttl stamped)

/-! ## Vector service (src/backend/app/services/vector_service.py)

ChromaDB is the external collaborator (§6): a named-collection store with
batched insert and top-k query by vector returning metadata, ordered by
ascending distance (squared Euclidean, its default).  The state below
models exactly that contract. -/

/-- Per-chunk metadata stored alongside each vector. -/
structure ChunkMeta where
  file_path : String
  type : String
  name : String
  language : String
  lines : String
  docstring : String
deriving Repr, DecidableEq

/-- One stored record of a collection. -/
structure ChromaEntry where
  entryId : String
  document : String
  metadata : ChunkMeta
  embedding : Vec
deriving Repr, DecidableEq

/-- A named collection with its creation metadata. -/
structure ChromaCollection where
  session_id : String
  entries : List ChromaEntry
deriving Repr, DecidableEq

/-- The collection namespace of the ChromaDB client. -/
abbrev ChromaState := List (String × ChromaCollection)

/-- Collection lookup by name. -/
def chromaGet : ChromaState → String → Option ChromaCollection
  | [], _ => none
  | (k, c) :: rest, nm => if k = nm then some c else chromaGet rest nm

/-- Replace a named collection's contents. -/
def chromaSet : ChromaState → String → ChromaCollection → ChromaState
  | [], nm, c => [(nm, c)]
  | (k, c') :: rest, nm, c =>
    if k = nm then (nm, c) :: rest else (k, c') :: chromaSet rest nm c

/-- Remove a collection (no error when absent — the callers below swallow
the client's error in that case). -/
def chromaRemove (st : ChromaState) (nm : String) : ChromaState :=
  st.filter (fun p => !(p.1 = nm))

/-- `create_collection`: defensively delete any existing collection of the
session's name (errors swallowed), then create a fresh empty one carrying
the session id as metadata. -/
def create_collection (st : ChromaState) (session_id : String) : ChromaState :=
  let collection_name := "session_" ++ session_id
  chromaSet (chromaRemove st collection_name) collection_name
    { session_id := session_id, entries := [] }

/-- Zip the four parallel field lists of a batch into records (the lists
are validated equal-length before this is reached). -/
def zipEntries : List String → List String → List ChunkMeta → List Vec → List ChromaEntry
  | id' :: ids, d :: ds, m :: ms, e :: es =>
    { entryId := id', document := d, metadata := m, embedding := e } ::
      zipEntries ids ds ms es
  | _, _, _, _ => []

/-- `collection.add` of the ChromaDB client: validates that the parallel
lists have equal lengths (Chroma raises on a mismatch) and appends the
records. -/
def chromaAdd (col : ChromaCollection) (ids documents : List String)
    (metadatas : List ChunkMeta) (embeddings : List Vec) :
    Except PyExc ChromaCollection :=
  if ids.length = documents.length ∧ ids.length = metadatas.length ∧
      ids.length = embeddings.length then
    .ok { col with entries := col.entries ++ zipEntries ids documents metadatas embeddings }
  else
    .error (.pyError "Unequal lengths for fields: ids, embeddings, metadatas, documents")

/-- The batch loop of `insert_embeddings` (`batch_size = 1000`): add each
slice in turn; a failing batch stops the loop, keeping the batches already
added. -/
def addBatches (ids documents : List String) (metadatas : List ChunkMeta)
    (embeddings : List Vec) :
    List Nat → ChromaCollection → ChromaCollection × Except PyExc Unit
  | [], col => (col, .ok ())
  | i :: rest, col =>
    match chromaAdd col (pySlice ids i (i + 1000)) (pySlice documents i (i + 1000))
        (pySlice metadatas i (i + 1000)) (pySlice embeddings i (i + 1000)) with
    | .ok col' => addBatches ids documents metadatas embeddings rest col'
    | .error e => (col, .error e)

/-- The metadata dict `insert_embeddings` stores for a chunk. -/
def chunkMeta (c : CodeChunk) : ChunkMeta :=
  { file_path := c.file_path, type := c.type, name := c.name,
    language := c.language,
    lines := toString c.start_line ++ "-" ++ toString c.end_line,
    docstring := c.docstring }

/-- `insert_embeddings`: fetch the session's collection (a missing one is
a client error, re-raised as `VectorDBException`), build the parallel
id/document/metadata/embedding lists and add them in batches of 1000; any
failure is re-raised as `VectorDBException`.  The state is threaded
explicitly so the records already added before a failure persist. -/
def insert_embeddings (st : ChromaState) (session_id : String)
    (chunks : List CodeChunk) (embeddings : List Vec) :
    ChromaState × Except PyExc Unit :=
  let collection_name := "session_" ++ session_id
  match chromaGet st collection_name with
  | none =>
    (st, .error (.vectorDBException ("Failed to insert embeddings: Collection "
      ++ collection_name ++ " does not exist.")))
  | some col =>
    let ids := chunks.map (fun c => c.id)
    let documents := chunks.map (fun c => c.code)
    let metadatas := chunks.map chunkMeta
    match addBatches ids documents metadatas embeddings
        (pyRangeStep ids.length 1000) col with
    | (col', .ok _) => (chromaSet st collection_name col', .ok ())
    | (col', .error e) =>
      (chromaSet st collection_name col',
       .error (.vectorDBException ("Failed to insert embeddings: " ++ e.message)))

/-- One formatted search result of `search_similar`. -/
structure RetrievalResult where
  id : String
  code : String
  metadata : ChunkMeta
  distance : ℚ
deriving Repr, DecidableEq

/-- Squared Euclidean distance, ChromaDB's default metric. -/
def sqDist (a b : Vec) : ℚ := ((a.zip b).map (fun p => (p.1 - p.2) ^ 2)).sum

/-- `collection.query` of the ChromaDB client: the stored entries ordered
by ascending distance to the query vector, cut to `n_results`. -/
def chromaQuery (col : ChromaCollection) (q : Vec) (n_results : Nat) :
    List ChromaEntry :=
  (col.entries.insertionSort
    (fun a b => sqDist a.embedding q ≤ sqDist b.embedding q)).take n_results

/-- `search_similar`: fetch the session's collection — a missing one is a
client error re-raised as `VectorDBException`, never an empty result — and
format the top-k query results. -/
def search_similar (st : ChromaState) (session_id : String)
    (query_embedding : Vec) (top_k : Nat) :
    Except PyExc (List RetrievalResult) :=
  let collection_name := "session_" ++ session_id
  match chromaGet st collection_name with
  | none =>
    .error (.vectorDBException ("Failed to search: Collection "
      ++ collection_name ++ " does not exist."))
  | some col =>
    .ok ((chromaQuery col query_embedding top_k).map (fun e =>
      { id := e.entryId, code := e.document, metadata := e.metadata,
        distance := sqDist e.embedding query_embedding }))

/-- `delete_collection`: best-effort removal, never raising. -/
def delete_collection (st : ChromaState) (session_id : String) : ChromaState :=
  chromaRemove st ("session_" ++ session_id)

/-! ## RAG orchestrator (src/backend/app/services/rag_service.py) -/

/-- The success dictionary of `index_codebase` (the wall-clock duration is
not modelled). -/
structure IndexResult where
  session_id : String
  chunks_indexed : Nat
  embeddings_generated : Nat
  status : String
deriving Repr, DecidableEq

/-- `index_codebase`: generate all embeddings in one batch, create the
session's collection, insert the embeddings; any failure propagates and
aborts the ingest, with the vector-store state at that point kept (no
rollback). -/
def index_codebase (encode : Encoder) (st : ChromaState) (session_id : String)
    (chunks : List CodeChunk) : ChromaState × Except PyExc IndexResult :=
  match generate_embeddings encode chunks with
  | .error e => (st, .error e)
  | .ok embeddings =>
    let st1 := create_collection st session_id
    match insert_embeddings st1 session_id chunks embeddings with
    | (st2, .error e) => (st2, .error e)
    | (st2, .ok _) =>
      (st2, .ok { session_id := session_id, chunks_indexed := chunks.length,
                  embeddings_generated := embeddings.length,
                  status := "success" })

/-! ## Specification-side helpers -/

mutual

/-- All nodes of a tree, root first (specification-side enumeration used
to state which nodes of the input tree receive chunks). -/
def allNodes1 : PyNode → List PyNode
  | .node k nm l e d body => .node k nm l e d body :: allNodesF body

/-- All nodes of a forest. -/
def allNodesF : List PyNode → List PyNode
  | [] => []
  | n :: rest => allNodes1 n ++ allNodesF rest

end

/-- Does a node drive the emission of a chunk (`isinstance(node,
ast.FunctionDef)` or `isinstance(node, ast.ClassDef)`)? -/
def isDefNode (n : PyNode) : Bool :=
  n.kind == PyNodeKind.functionDef || n.kind == PyNodeKind.classDef

/-- The claim-level correspondence between a definition node and the chunk
emitted for it: kind, declared name, exact line span, docstring, and the
code sliced from those lines (everything except the counter-dependent
id). -/
def ChunkForNode (kindStr : String) (lines : List String) (n : PyNode)
    (ch : CodeChunk) : Prop :=
  ch.type = kindStr ∧ ch.name = n.name ∧ ch.start_line = n.lineno ∧
  ch.end_line = pyNodeEnd n ∧ ch.docstring = n.doc.getD "" ∧
  ch.code = pyJoin "\n" (pySlice lines (n.lineno - 1) (pyNodeEnd n))

/-! ## Theorems -/

/-- Every error classified at the bottom of `_call_model` is an
`LLMException`, hence never matches the tenacity retry predicate. -/
theorem isRetryableExc_classifyCallError (model : String) (e : PyExc) :
    isRetryableExc (classifyCallError model e) = false := by
  unfold classifyCallError
  split_ifs <;> rfl

/-- Any error escaping one attempt of `_call_model` is non-retryable. -/
theorem callModelBody_error_not_retryable (p : Provider) (m : String) (a : Nat)
    (e : PyExc) (h : callModelBody p m a = .error e) : isRetryableExc e = false := by
  unfold callModelBody at h
  cases hp : p m a with
  | ok r => rw [hp] at h; exact absurd h (by simp)
  | error e' =>
    rw [hp] at h
    have he : classifyCallError m e' = e := by
      simpa using h
    rw [← he]
    exact isRetryableExc_classifyCallError m e'

/-- The decorated `_call_model` behaves exactly like a single attempt. -/
theorem callModel_eq_single (p : Provider) (m : String) :
    callModel p m = (callModelBody p m 0, 1) := by
  unfold callModel callModelAttempts
  cases h : callModelBody p m 0 with
  | ok r => simp
  | error e => simp [callModelBody_error_not_retryable p m 0 e h]

/-- C1: the claim that a per-model call is retried with exponential backoff
for transient failures fails on the code: inside `_call_model` the blanket
`except Exception` converts every failure — timeouts and network errors
included — into an `LLMException` before the tenacity decorator can see it,
so the retry predicate `retry_if_exception_type((httpx.TimeoutException,
httpx.NetworkError))` never matches and every model receives exactly one
underlying provider invocation; in particular a provider that times out on
every call is not retried but raises `LLMException` at once.  Hard failures
(quota, rate limit, model not found) indeed propagate immediately. -/
theorem c1_transient_errors_never_retried :
    (∀ (provider : Provider) (model : String),
        (callModel provider model).2 = 1) ∧
    (callModel (fun _ _ => .error (.httpxTimeout "Request timed out"))
        "google/gemini-flash-1.5" =
      (.error (.llmException "LLM request failed: Request timed out"), 1)) := by
  constructor
  · intro provider model
    rw [callModel_eq_single]
  · rw [callModel_eq_single]
    decide

/-- Exhausting the model list after a final failing model reports the last
underlying error in the `LLMException` message. -/
theorem tryModels_last_error (p : Provider) :
    ∀ (ms1 : List String) (M : String) (last : Option PyExc) (e : PyExc),
      (∀ m ∈ ms1, ∃ e', (callModel p m).1 = .error e') →
      (callModel p M).1 = .error e →
      tryModels p last (ms1 ++ [M]) =
        .error (.llmException ("All models failed. Last error: " ++ e.message)) := by
  intro ms1
  induction ms1 with
  | nil =>
    intro M last e _ hM
    simp only [List.nil_append, tryModels, hM, optExcStr]
  | cons m ms ih =>
    intro M last e hfail hM
    obtain ⟨e', he'⟩ := hfail m (by simp)
    simp only [List.cons_append, tryModels, he']
    exact ih M (some e') e (fun m' hm' => hfail m' (by simp [hm'])) hM

/-- The first model in the list to succeed determines the returned
result. -/
theorem tryModels_first_success (p : Provider) :
    ∀ (ms1 : List String) (M : String) (ms2 : List String) (last : Option PyExc)
      (r : LLMCallResult),
      (∀ m ∈ ms1, ∃ e, (callModel p m).1 = .error e) →
      (callModel p M).1 = .ok r →
      tryModels p last (ms1 ++ M :: ms2) =
        .ok { answer := r.content, modelUsed := M, tokens := r.tokens, cost := r.cost } := by
  intro ms1
  induction ms1 with
  | nil =>
    intro M ms2 last r _ hM
    simp only [List.nil_append, tryModels, hM]
  | cons m ms ih =>
    intro M ms2 last r hfail hM
    obtain ⟨e, he⟩ := hfail m (by simp)
    simp only [List.cons_append, tryModels, he]
    exact ih M ms2 (some e) r (fun m' hm' => hfail m' (by simp [hm'])) hM

/-- C2: `generate_explanation` attempts models strictly in order: exactly
the explicitly given model when one is passed (Python truthiness: a
non-empty string), otherwise the configured default followed by the
fallback list exactly when fallback is enabled; the first model to succeed
determines the returned `model_used`, token usage and cost; and when every
model fails the call raises `LLMException` carrying the last underlying
error. -/
theorem c2_model_fallback_order :
    (∀ (m : String), m ≠ "" → ∀ (d : String) (fb : List String) (en : Bool),
        modelsToTry (some m) d fb en = [m]) ∧
    (∀ (d : String) (fb : List String),
        modelsToTry none d fb true = d :: fb ∧ modelsToTry none d fb false = [d]) ∧
    (∀ (p : Provider) (model : Option String) (d : String) (fb ms1 ms2 : List String)
        (M : String) (en : Bool) (r : LLMCallResult),
        modelsToTry model d fb en = ms1 ++ M :: ms2 →
        (∀ m ∈ ms1, ∃ e, (callModel p m).1 = .error e) →
        (callModel p M).1 = .ok r →
        generateExplanation p model d fb en =
          .ok { answer := r.content, modelUsed := M, tokens := r.tokens, cost := r.cost }) ∧
    (∀ (p : Provider) (model : Option String) (d : String) (fb ms1 : List String)
        (M : String) (en : Bool) (e : PyExc),
        modelsToTry model d fb en = ms1 ++ [M] →
        (∀ m ∈ ms1, ∃ e', (callModel p m).1 = .error e') →
        (callModel p M).1 = .error e →
        generateExplanation p model d fb en =
          .error (.llmException ("All models failed. Last error: " ++ e.message))) := by
  refine ⟨?_, ?_, ?_, ?_⟩
  · intro m hm d fb en
    simp [modelsToTry, pyOrStr, optStrTruthy, hm]
  · intro d fb
    constructor <;> simp [modelsToTry, pyOrStr, optStrTruthy]
  · intro p model d fb ms1 ms2 M en r hlist hfail hM
    unfold generateExplanation
    rw [hlist]
    exact tryModels_first_success p ms1 M ms2 none r hfail hM
  · intro p model d fb ms1 M en e hlist hfail hM
    unfold generateExplanation
    rw [hlist]
    exact tryModels_last_error p ms1 M none e hfail hM

/-- Witness for C2: with the default model failing and the first fallback
succeeding, `generate_explanation` returns the fallback as `model_used`. -/
theorem c2_model_fallback_order_witness :
    generateExplanation
      (fun m _ => if m = "m2" then .ok ⟨"the answer", none, none⟩
                  else .error (.pyError "boom"))
      none "m1" ["m2"] true =
      .ok { answer := "the answer", modelUsed := "m2", tokens := none, cost := none } :=
  c2_model_fallback_order.2.2.1
    (fun m _ => if m = "m2" then .ok ⟨"the answer", none, none⟩
                else .error (.pyError "boom"))
    none "m1" ["m2"] ["m1"] [] "m2" true ⟨"the answer", none, none⟩
    (by decide)
    (by
      intro m hm
      have hm1 : m = "m1" := by simpa using hm
      subst hm1
      exact ⟨.llmException "LLM request failed: boom", by decide⟩)
    (by decide)

/-- Node enumeration distributes over forest concatenation. -/
theorem allNodesF_append (a b : List PyNode) :
    allNodesF (a ++ b) = allNodesF a ++ allNodesF b := by
  induction a with
  | nil => simp [allNodesF]
  | cons n rest ih => simp [allNodesF, ih]

/-- `ast.walk` visits exactly the nodes of the forest, at every depth (as
a multiset; the traversal order is breadth-first). -/
theorem pyWalk_perm : ∀ l : List PyNode, (pyWalk l).Perm (allNodesF l) := by
  intro l
  induction l using pyWalk.induct with
  | case1 => simp [pyWalk, allNodesF]
  | case2 n rest ih =>
    rw [pyWalk]
    have h1 : (n :: pyWalk (rest ++ n.body)).Perm
        (n :: (allNodesF rest ++ allNodesF n.body)) := by
      rw [← allNodesF_append]
      exact ih.cons n
    have h2 : (n :: (allNodesF rest ++ allNodesF n.body)).Perm
        (n :: (allNodesF n.body ++ allNodesF rest)) :=
      (List.perm_append_comm).cons n
    have h3 : n :: (allNodesF n.body ++ allNodesF rest) = allNodesF (n :: rest) := by
      cases n with
      | node k nm l e d body => simp [allNodesF, allNodes1, PyNode.body]
    exact h3 ▸ h1.trans h2

/-- The emission loop produces exactly one chunk per definition node of
its input list. -/
theorem emitPythonDefs_length (lines : List String) (fp : String) :
    ∀ (l : List PyNode) (c : Nat),
      (emitPythonDefs lines fp l c).1.length = l.countP isDefNode := by
  intro l
  induction l with
  | nil => intro c; simp [emitPythonDefs]
  | cons n rest ih =>
    intro c
    cases hk : n.kind with
    | functionDef => simp [emitPythonDefs, hk, List.countP_cons, isDefNode, ih]
    | classDef => simp [emitPythonDefs, hk, List.countP_cons, isDefNode, ih]
    | asyncFunctionDef => simp [emitPythonDefs, hk, List.countP_cons, isDefNode, ih]
    | otherNode => simp [emitPythonDefs, hk, List.countP_cons, isDefNode, ih]

/-- Every function-definition node of the emission loop's input receives a
chunk with its name, span, docstring and sliced code. -/
theorem emitPythonDefs_mem_function (lines : List String) (fp : String) :
    ∀ (l : List PyNode) (c : Nat) (n : PyNode), n ∈ l →
      n.kind = PyNodeKind.functionDef →
      ∃ ch ∈ (emitPythonDefs lines fp l c).1, ChunkForNode "function" lines n ch := by
  intro l
  induction l with
  | nil => intro c n hn; exact absurd hn (List.not_mem_nil n)
  | cons m rest ih =>
    intro c n hn hk
    rcases List.mem_cons.mp hn with heq | htail
    · subst heq
      refine ⟨(parsePythonFunction n lines fp c).1, ?_, ?_⟩
      · simp [emitPythonDefs, hk]
      · simp [ChunkForNode, parsePythonFunction, createChunk]
    · cases hm : m.kind with
      | functionDef =>
        obtain ⟨ch, hch, hprop⟩ := ih (parsePythonFunction m lines fp c).2 n htail hk
        exact ⟨ch, by simp [emitPythonDefs, hm, hch], hprop⟩
      | classDef =>
        obtain ⟨ch, hch, hprop⟩ := ih (parsePythonClass m lines fp c).2 n htail hk
        exact ⟨ch, by simp [emitPythonDefs, hm, hch], hprop⟩
      | asyncFunctionDef =>
        obtain ⟨ch, hch, hprop⟩ := ih c n htail hk
        exact ⟨ch, by simp [emitPythonDefs, hm, hch], hprop⟩
      | otherNode =>
        obtain ⟨ch, hch, hprop⟩ := ih c n htail hk
        exact ⟨ch, by simp [emitPythonDefs, hm, hch], hprop⟩

/-- Every class-definition node of the emission loop's input receives a
chunk with its name, span, docstring and sliced code. -/
theorem emitPythonDefs_mem_class (lines : List String) (fp : String) :
    ∀ (l : List PyNode) (c : Nat) (n : PyNode), n ∈ l →
      n.kind = PyNodeKind.classDef →
      ∃ ch ∈ (emitPythonDefs lines fp l c).1, ChunkForNode "class" lines n ch := by
  intro l
  induction l with
  | nil => intro c n hn; exact absurd hn (List.not_mem_nil n)
  | cons m rest ih =>
    intro c n hn hk
    rcases List.mem_cons.mp hn with heq | htail
    · subst heq
      refine ⟨(parsePythonClass n lines fp c).1, ?_, ?_⟩
      · simp [emitPythonDefs, hk]
      · simp [ChunkForNode, parsePythonClass, createChunk]
    · cases hm : m.kind with
      | functionDef =>
        obtain ⟨ch, hch, hprop⟩ := ih (parsePythonFunction m lines fp c).2 n htail hk
        exact ⟨ch, by simp [emitPythonDefs, hm, hch], hprop⟩
      | classDef =>
        obtain ⟨ch, hch, hprop⟩ := ih (parsePythonClass m lines fp c).2 n htail hk
        exact ⟨ch, by simp [emitPythonDefs, hm, hch], hprop⟩
      | asyncFunctionDef =>
        obtain ⟨ch, hch, hprop⟩ := ih c n htail hk
        exact ⟨ch, by simp [emitPythonDefs, hm, hch], hprop⟩
      | otherNode =>
        obtain ⟨ch, hch, hprop⟩ := ih c n htail hk
        exact ⟨ch, by simp [emitPythonDefs, hm, hch], hprop⟩

/-- C3 is refuted on the code: `parse_python_file` walks the whole tree
with `ast.walk`, so a class method receives its own chunk.  On the file
`class A:` / `    def m(self):` / `        pass` (whose AST has the class
at lines 1–3 containing the method at lines 2–3) the parse yields three
chunks — module, class `A`, and the method `m` — where the claim admits
only the module chunk and the top-level class chunk. -/
theorem c3_counterexample_method_gets_chunk :
    ((parsePythonFile "class A:\n    def m(self):\n        pass"
        (some [PyNode.node PyNodeKind.classDef "A" 1 (some 3) none
          [PyNode.node PyNodeKind.functionDef "m" 2 (some 3) none []]])
        "auth.py" "auth" 0).1.map (fun ch => (ch.type, ch.name))) =
      [("module", "auth"), ("class", "A"), ("function", "m")] := by
  simp only [parsePythonFile]
  simp only [pyWalk.eq_def, PyNode.body, List.nil_append]
  simp [emitPythonDefs, PyNode.kind, PyNode.body, PyNode.name,
    parsePythonClass, parsePythonFunction, createChunk]

/-- C3 (amended): for every syntactically valid Python file, parsing emits,
besides the single module-level chunk, exactly one chunk per function
definition and one per class definition at every nesting depth — nested
functions and class methods included, because `ast.walk` traverses the
entire tree — each carrying its exact start/end line span, its declared
name, and its extracted docstring if present (async function definitions
are not matched and receive no chunk). -/
theorem c3_chunk_per_def_at_every_depth
    (content : String) (tree : List PyNode) (rp stem : String) (c : Nat) :
    ((parsePythonFile content (some tree) rp stem c).1.length =
      1 + (allNodesF tree).countP isDefNode) ∧
    (∀ n ∈ allNodesF tree, n.kind = PyNodeKind.functionDef →
      ∃ ch ∈ (parsePythonFile content (some tree) rp stem c).1,
        ChunkForNode "function" (pySplitlines content) n ch) ∧
    (∀ n ∈ allNodesF tree, n.kind = PyNodeKind.classDef →
      ∃ ch ∈ (parsePythonFile content (some tree) rp stem c).1,
        ChunkForNode "class" (pySplitlines content) n ch) := by
  refine ⟨?_, ?_, ?_⟩
  · simp only [parsePythonFile, List.length_cons]
    rw [emitPythonDefs_length, (pyWalk_perm tree).countP_eq]
    omega
  · intro n hn hk
    have hmem : n ∈ pyWalk tree := ((pyWalk_perm tree).mem_iff).mpr hn
    obtain ⟨ch, hch, hprop⟩ :=
      emitPythonDefs_mem_function (pySplitlines content) rp (pyWalk tree)
        (createChunk c "module" stem (pyTake 1000 content) rp 1
          (pySplitlines content).length "python" "").2 n hmem hk
    exact ⟨ch, by simp only [parsePythonFile]; exact List.mem_cons_of_mem _ hch, hprop⟩
  · intro n hn hk
    have hmem : n ∈ pyWalk tree := ((pyWalk_perm tree).mem_iff).mpr hn
    obtain ⟨ch, hch, hprop⟩ :=
      emitPythonDefs_mem_class (pySplitlines content) rp (pyWalk tree)
        (createChunk c "module" stem (pyTake 1000 content) rp 1
          (pySplitlines content).length "python" "").2 n hmem hk
    exact ⟨ch, by simp only [parsePythonFile]; exact List.mem_cons_of_mem _ hch, hprop⟩

/-- Witness for the amended C3 at the class-plus-method file: the class
node and its method node each receive a chunk with their spans and names,
and the total is three chunks. -/
theorem c3_chunk_per_def_at_every_depth_witness :
    ((parsePythonFile "class A:\n    def m(self):\n        pass"
        (some [PyNode.node PyNodeKind.classDef "A" 1 (some 3) none
          [PyNode.node PyNodeKind.functionDef "m" 2 (some 3) none []]])
        "auth.py" "auth" 0).1.length = 1 + 2) ∧
    (∃ ch ∈ (parsePythonFile "class A:\n    def m(self):\n        pass"
        (some [PyNode.node PyNodeKind.classDef "A" 1 (some 3) none
          [PyNode.node PyNodeKind.functionDef "m" 2 (some 3) none []]])
        "auth.py" "auth" 0).1,
      ChunkForNode "function"
        (pySplitlines "class A:\n    def m(self):\n        pass")
        (PyNode.node PyNodeKind.functionDef "m" 2 (some 3) none []) ch) := by
  have h := c3_chunk_per_def_at_every_depth
    "class A:\n    def m(self):\n        pass"
    [PyNode.node PyNodeKind.classDef "A" 1 (some 3) none
      [PyNode.node PyNodeKind.functionDef "m" 2 (some 3) none []]]
    "auth.py" "auth" 0
  refine ⟨?_, ?_⟩
  · rw [h.1]
    norm_num [allNodesF, allNodes1, isDefNode, List.countP_cons, PyNode.kind]
  · exact h.2.1 (PyNode.node PyNodeKind.functionDef "m" 2 (some 3) none [])
      (by simp [allNodesF, allNodes1]) rfl

/-- The newline splitter never returns an empty piece list. -/
theorem splitNl_ne_nil (l : List Char) : splitNl l ≠ [] := by
  cases l with
  | nil => simp [splitNl]
  | cons c rest =>
    by_cases h : c = '\n'
    · simp [splitNl, h]
    · simp only [splitNl, if_neg h]
      cases hs : splitNl rest <;> simp

/-- Number of pieces of the newline splitter. -/
theorem splitNl_length (l : List Char) : (splitNl l).length = countNl l + 1 := by
  induction l with
  | nil => simp [splitNl, countNl]
  | cons c rest ih =>
    by_cases h : c = '\n'
    · simp [splitNl, h, countNl, List.countP_cons, ih]
    · simp only [splitNl, if_neg h]
      cases hs : splitNl rest with
      | nil => exact absurd hs (splitNl_ne_nil rest)
      | cons p ps =>
        have := ih
        rw [hs] at this
        simp only [List.length_cons] at this ⊢
        have hcount : countNl (c :: rest) = countNl rest := by
          simp [countNl, List.countP_cons, h]
        omega

/-- A nonempty file always has at least one line. -/
theorem pySplitlines_length_pos (s : String) (h : s ≠ "") :
    0 < (pySplitlines s).length := by
  unfold pySplitlines
  rw [if_neg h]
  by_cases hl : s.data.getLast? = some '\n'
  · rw [if_pos hl]
    have hmem : '\n' ∈ s.data := by
      obtain ⟨hne, heq⟩ := List.mem_getLast?_eq_getLast hl
      exact heq ▸ List.getLast_mem hne
    have hcount : 0 < countNl s.data :=
      List.countP_pos_iff.mpr ⟨'\n', hmem, by simp⟩
    simp only [List.length_map, List.length_dropLast, splitNl_length]
    omega
  · rw [if_neg hl]
    simp only [List.length_map, splitNl_length]
    omega

/-- Counting newlines in a prefix is monotone in the prefix length. -/
theorem countNl_take_mono (l : List Char) {i j : Nat} (h : i ≤ j) :
    countNl (l.take i) ≤ countNl (l.take j) := by
  have heq : l.take i = (l.take j).take i := by
    rw [List.take_take, min_eq_left h]
  rw [heq]
  exact (List.take_sublist i (l.take j)).countP_le _

/-- The brace scan never moves backwards. -/
theorem braceScanAux_ge : ∀ (cs : List Char) (pos bc : Nat),
    pos ≤ braceScanAux cs pos bc := by
  intro cs
  induction cs with
  | nil => intro pos bc; simp [braceScanAux]
  | cons c rest ih =>
    intro pos bc
    simp only [braceScanAux]
    by_cases h : bc = 0
    · rw [if_pos h]
    · rw [if_neg h]
      exact le_trans (Nat.le_succ pos) (ih (pos + 1) _)

/-- Every chunk the Python emission loop produces carries the line span of
one of its input nodes. -/
theorem emitPythonDefs_span (lines : List String) (fp : String) :
    ∀ (l : List PyNode) (c : Nat) (ch : CodeChunk),
      ch ∈ (emitPythonDefs lines fp l c).1 →
      ∃ n ∈ l, ch.start_line = n.lineno ∧ ch.end_line = pyNodeEnd n := by
  intro l
  induction l with
  | nil => intro c ch hch; simp [emitPythonDefs] at hch
  | cons m rest ih =>
    intro c ch hch
    cases hm : m.kind with
    | functionDef =>
      simp only [emitPythonDefs, hm] at hch
      rcases List.mem_cons.mp hch with heq | htail
      · exact ⟨m, List.mem_cons_self m rest,
          by simp [heq, parsePythonFunction, createChunk]⟩
      · obtain ⟨n, hn, hsp⟩ := ih _ ch htail
        exact ⟨n, List.mem_cons_of_mem m hn, hsp⟩
    | classDef =>
      simp only [emitPythonDefs, hm] at hch
      rcases List.mem_cons.mp hch with heq | htail
      · exact ⟨m, List.mem_cons_self m rest,
          by simp [heq, parsePythonClass, createChunk]⟩
      · obtain ⟨n, hn, hsp⟩ := ih _ ch htail
        exact ⟨n, List.mem_cons_of_mem m hn, hsp⟩
    | asyncFunctionDef =>
      simp only [emitPythonDefs, hm] at hch
      obtain ⟨n, hn, hsp⟩ := ih _ ch hch
      exact ⟨n, List.mem_cons_of_mem m hn, hsp⟩
    | otherNode =>
      simp only [emitPythonDefs, hm] at hch
      obtain ⟨n, hn, hsp⟩ := ih _ ch hch
      exact ⟨n, List.mem_cons_of_mem m hn, hsp⟩

/-- Every chunk the JavaScript match loop produces carries the line span
computed from one of its matches. -/
theorem emitJsChunks_span (content : String) (lines : List String)
    (rp lang : String) :
    ∀ (ms : List ReMatch) (c : Nat) (ch : CodeChunk),
      ch ∈ (emitJsChunks content lines rp lang ms c).1 →
      ∃ m ∈ ms,
        ch.start_line = countNl (content.data.take m.matchStart) + 1 ∧
        ch.end_line = countNl (content.data.take
          (braceScanAux (content.data.drop m.matchEnd) m.matchEnd 1)) + 1 := by
  intro ms
  induction ms with
  | nil => intro c ch hch; simp [emitJsChunks] at hch
  | cons m rest ih =>
    intro c ch hch
    simp only [emitJsChunks] at hch
    rcases List.mem_cons.mp hch with heq | htail
    · exact ⟨m, List.mem_cons_self m rest,
        by simp [heq, jsFunctionChunk, createChunk]⟩
    · obtain ⟨m', hm', hsp⟩ := ih _ ch htail
      exact ⟨m', List.mem_cons_of_mem m hm', hsp⟩

/-- Every chunk the generic window loop produces carries the line span of
one of its windows, and is module-kind. -/
theorem emitGenericChunks_span (content : String) (cs : Nat)
    (rp stem lang : String) :
    ∀ (idxs : List Nat) (c : Nat) (ch : CodeChunk),
      ch ∈ (emitGenericChunks content cs rp stem lang idxs c).1 →
      ∃ i ∈ idxs, ch.type = "module" ∧
        ch.start_line = countNl (content.data.take i) + 1 ∧
        ch.end_line = countNl (content.data.take
          (i + (pySlice content.data i (i + cs)).length)) + 1 := by
  intro idxs
  induction idxs with
  | nil => intro c ch hch; simp [emitGenericChunks] at hch
  | cons i rest ih =>
    intro c ch hch
    simp only [emitGenericChunks] at hch
    rcases List.mem_cons.mp hch with heq | htail
    · exact ⟨i, List.mem_cons_self i rest,
        by simp [heq, genericWindowChunk, createChunk]⟩
    · obtain ⟨i', hi', hsp⟩ := ih _ ch htail
      exact ⟨i', List.mem_cons_of_mem i hi', hsp⟩

/-- The generic window loop emits one chunk per window index. -/
theorem emitGenericChunks_length (content : String) (cs : Nat)
    (rp stem lang : String) :
    ∀ (idxs : List Nat) (c : Nat),
      (emitGenericChunks content cs rp stem lang idxs c).1.length = idxs.length := by
  intro idxs
  induction idxs with
  | nil => intro c; simp [emitGenericChunks]
  | cons i rest ih => intro c; simp [emitGenericChunks, ih]

/-- C5 is refuted on the code: an empty file handled by the generic
fixed-size strategy yields no chunks at all — `range(0, 0, chunk_size)` is
empty, so the window loop never runs — not the single module-level chunk
the claim asserts. -/
theorem c5_counterexample_empty_generic_file :
    parseGenericFile "" "notes.txt" "notes" ".txt" 1000 0 = ([], 0) := by
  decide

/-- C5 (amended): a source file with zero recognizable top-level
constructs yields exactly one module-level chunk under the Python and
JavaScript strategies; the generic fixed-size strategy instead yields one
module-kind chunk per `chunk_size`-character window, i.e.
`⌈len(content)/chunk_size⌉` chunks — in particular zero chunks for an
empty file. -/
theorem c5_module_chunks_zero_constructs :
    (∀ (content : String) (tree : List PyNode) (rp stem : String) (c : Nat),
      (allNodesF tree).countP isDefNode = 0 →
      ((parsePythonFile content (some tree) rp stem c).1.map (fun ch => ch.type)) =
        ["module"]) ∧
    (∀ (content rp stem : String) (ts : Bool) (c : Nat),
      ((parseJavascriptFile content [] rp stem ts c).1.map (fun ch => ch.type)) =
        ["module"]) ∧
    (∀ (content rp stem ext : String) (cs c : Nat), 0 < cs →
      (parseGenericFile content rp stem ext cs c).1.length =
        (content.length + cs - 1) / cs ∧
      ∀ ch ∈ (parseGenericFile content rp stem ext cs c).1, ch.type = "module") := by
  refine ⟨?_, ?_, ?_⟩
  · intro content tree rp stem c hzero
    have hlen : (emitPythonDefs (pySplitlines content) rp (pyWalk tree)
        (createChunk c "module" stem (pyTake 1000 content) rp 1
          (pySplitlines content).length "python" "").2).1.length = 0 := by
      rw [emitPythonDefs_length, (pyWalk_perm tree).countP_eq, hzero]
    have hnil := List.length_eq_zero.mp hlen
    simp only [parsePythonFile, List.map_cons, hnil, List.map_nil]
    simp [createChunk]
  · intro content rp stem ts c
    simp only [parseJavascriptFile, emitJsChunks, List.nil_append, List.map_cons,
      List.map_nil]
    simp [createChunk]
  · intro content rp stem ext cs c hcs
    constructor
    · rw [show (parseGenericFile content rp stem ext cs c).1 =
          (emitGenericChunks content cs rp stem
            (if ext = "" then "unknown" else pyDrop 1 ext)
            (pyRangeStep content.length cs) c).1 from rfl]
      rw [emitGenericChunks_length]
      simp [pyRangeStep, Nat.pos_iff_ne_zero.mp hcs]
    · intro ch hch
      obtain ⟨i, _, htype, _⟩ := emitGenericChunks_span content cs rp stem _ _ c ch hch
      exact htype

/-- Witness for the amended C5: a Python file whose tree holds a single
non-definition statement yields exactly one module chunk, and a
three-character unknown-extension file yields exactly one window chunk
(`⌈3/1000⌉ = 1`). -/
theorem c5_module_chunks_zero_constructs_witness :
    ((parsePythonFile "x = 1\n"
        (some [PyNode.node PyNodeKind.otherNode "" 1 (some 1) none []])
        "a.py" "a" 0).1.map (fun ch => ch.type)) = ["module"] ∧
    (parseGenericFile "abc" "c.txt" "c" ".txt" 1000 0).1.length = 1 := by
  constructor
  · exact c5_module_chunks_zero_constructs.1 "x = 1\n"
      [PyNode.node PyNodeKind.otherNode "" 1 (some 1) none []] "a.py" "a" 0
      (by simp [allNodesF, allNodes1, isDefNode, PyNode.kind])
  · have h := (c5_module_chunks_zero_constructs.2.2 "abc" "c.txt" "c" ".txt"
      1000 0 (by decide)).1
    simpa using h

/-- C9 is refuted on the code: parsing an empty Python file emits a
module-level chunk spanning lines 1 to 0 (`end_line` is the length of the
empty line list), violating `start_line ≤ end_line`. -/
theorem c9_counterexample_empty_file_span :
    ((parsePythonFile "" (some []) "empty.py" "empty" 0).1.map
      (fun ch => (ch.start_line, ch.end_line,
        decide (ch.start_line ≤ ch.end_line)))) = [(1, 0, false)] := by
  simp only [parsePythonFile, pyWalk.eq_def]
  simp [emitPythonDefs, createChunk, pySplitlines]

/-- C9 (amended): every chunk produced by the three strategies satisfies
`1 ≤ start_line ≤ end_line`, provided the file content is nonempty (for
the Python and JavaScript strategies, whose module chunk of an empty file
ends at line 0) and the external parser data is well-formed (positive
`lineno` with `end_lineno ≥ lineno` from CPython, `match.start() ≤
match.end()` from the regex engine); the generic strategy satisfies the
invariant unconditionally. -/
theorem c9_line_invariant :
    (∀ (content : String) (tree : List PyNode) (rp stem : String) (c : Nat),
      content ≠ "" →
      (∀ n ∈ allNodesF tree, 1 ≤ n.lineno ∧
        ∀ e, n.endLineno = some e → n.lineno ≤ e) →
      ∀ ch ∈ (parsePythonFile content (some tree) rp stem c).1,
        1 ≤ ch.start_line ∧ ch.start_line ≤ ch.end_line) ∧
    (∀ (content : String) (ms : List ReMatch) (rp stem : String) (ts : Bool) (c : Nat),
      content ≠ "" →
      (∀ m ∈ ms, m.matchStart ≤ m.matchEnd) →
      ∀ ch ∈ (parseJavascriptFile content ms rp stem ts c).1,
        1 ≤ ch.start_line ∧ ch.start_line ≤ ch.end_line) ∧
    (∀ (content rp stem ext : String) (cs c : Nat),
      ∀ ch ∈ (parseGenericFile content rp stem ext cs c).1,
        1 ≤ ch.start_line ∧ ch.start_line ≤ ch.end_line) := by
  refine ⟨?_, ?_, ?_⟩
  · intro content tree rp stem c hne hwf ch hch
    simp only [parsePythonFile] at hch
    rcases List.mem_cons.mp hch with heq | htail
    · subst heq
      simp only [createChunk]
      exact ⟨le_refl 1, pySplitlines_length_pos content hne⟩
    · obtain ⟨n, hn, hstart, hend⟩ :=
        emitPythonDefs_span (pySplitlines content) rp (pyWalk tree) _ ch htail
      have hnode := hwf n (((pyWalk_perm tree).mem_iff).mp hn)
      refine ⟨hstart ▸ hnode.1, ?_⟩
      rw [hstart, hend]
      unfold pyNodeEnd
      cases he : n.endLineno with
      | none => exact le_refl _
      | some e =>
        by_cases hz : e = 0
        · simp [hz]
        · simp only [if_neg hz]
          exact hnode.2 e he
  · intro content ms rp stem ts c hne hwf ch hch
    simp only [parseJavascriptFile] at hch
    rcases List.mem_append.mp hch with hleft | hright
    · obtain ⟨m, hm, hstart, hend⟩ :=
        emitJsChunks_span content (pySplitlines content) rp _ ms c ch hleft
      refine ⟨hstart ▸ Nat.succ_le_succ (Nat.zero_le _), ?_⟩
      rw [hstart, hend]
      have hpos : m.matchStart ≤
          braceScanAux (content.data.drop m.matchEnd) m.matchEnd 1 :=
        le_trans (hwf m hm) (braceScanAux_ge _ m.matchEnd 1)
      exact Nat.succ_le_succ (countNl_take_mono content.data hpos)
    · rcases List.mem_singleton.mp hright with heq
      subst heq
      simp only [createChunk]
      exact ⟨le_refl 1, pySplitlines_length_pos content hne⟩
  · intro content rp stem ext cs c ch hch
    obtain ⟨i, _, _, hstart, hend⟩ :=
      emitGenericChunks_span content cs rp stem _ _ c ch hch
    refine ⟨hstart ▸ Nat.succ_le_succ (Nat.zero_le _), ?_⟩
    rw [hstart, hend]
    exact Nat.succ_le_succ (countNl_take_mono content.data (Nat.le_add_right i _))

/-- Witness for the amended C9 across all three strategies at concrete
files. -/
theorem c9_line_invariant_witness :
    (∀ ch ∈ (parsePythonFile "x = 1\n" (some []) "a.py" "a" 0).1,
      1 ≤ ch.start_line ∧ ch.start_line ≤ ch.end_line) ∧
    (∀ ch ∈ (parseJavascriptFile "function f() {}"
        [{ matchStart := 0, matchEnd := 14, group1 := "f" }] "b.js" "b" false 0).1,
      1 ≤ ch.start_line ∧ ch.start_line ≤ ch.end_line) ∧
    (∀ ch ∈ (parseGenericFile "hello\nworld" "c.txt" "c" ".txt" 1000 0).1,
      1 ≤ ch.start_line ∧ ch.start_line ≤ ch.end_line) :=
  ⟨c9_line_invariant.1 "x = 1\n" [] "a.py" "a" 0 (by decide)
      (by simp [allNodesF]),
   c9_line_invariant.2.1 "function f() {}"
      [{ matchStart := 0, matchEnd := 14, group1 := "f" }] "b.js" "b" false 0
      (by decide)
      (by intro m hm; rw [List.mem_singleton.mp hm]; decide),
   c9_line_invariant.2.2 "hello\nworld" "c.txt" "c" ".txt" 1000 0⟩

/-- C6: the exact string handed to the embedding model for a chunk is the
concatenation, in this order, of the file-path line, the language line,
the capitalized "kind: name" line, the documentation line (present exactly
when the docstring is nonempty), and the code block — truncated to its
first 2000 characters, totally (no error on longer input): the encoder
receives precisely these truncated context texts, one per chunk, and its
outcome (or the wrapped failure) is passed through. -/
theorem c6_embedding_input_exact :
    (∀ c : CodeChunk, get_context_text c =
      "File: " ++ c.file_path ++ "\n" ++ "Language: " ++ c.language ++ "\n" ++
      pyCapitalize c.type ++ ": " ++ c.name ++ "\n" ++
      (if c.docstring = "" then "" else "Documentation: " ++ c.docstring ++ "\n") ++
      "Code:\n" ++ c.code) ∧
    (∀ (encode : Encoder) (chunks : List CodeChunk) (es : List Vec),
      chunks ≠ [] →
      encode (chunks.map (fun c => pyTake 2000 (get_context_text c))) = .ok es →
      generate_embeddings encode chunks = .ok es) ∧
    (∀ (encode : Encoder) (chunks : List CodeChunk) (e : PyExc),
      chunks ≠ [] →
      encode (chunks.map (fun c => pyTake 2000 (get_context_text c))) = .error e →
      generate_embeddings encode chunks =
        .error (.embeddingException ("Failed to generate embeddings: " ++ e.message))) ∧
    (∀ s : String, (pyTake 2000 s).length ≤ 2000) := by
  refine ⟨?_, ?_, ?_, ?_⟩
  · intro c
    unfold get_context_text
    by_cases hd : c.docstring = ""
    · simp only [if_pos hd]
      apply String.ext
      simp [pyJoin, String.data_append]
    · simp only [if_neg hd]
      apply String.ext
      simp [pyJoin, String.data_append]
  · intro encode chunks es hne henc
    have hmap : (chunks.map (fun c => get_context_text c)).map
        (fun t => pyTake 2000 t) =
        chunks.map (fun c => pyTake 2000 (get_context_text c)) := by
      simp [List.map_map, Function.comp]
    simp only [generate_embeddings, List.isEmpty_eq_true, if_neg hne, hmap, henc]
  · intro encode chunks e hne henc
    have hmap : (chunks.map (fun c => get_context_text c)).map
        (fun t => pyTake 2000 t) =
        chunks.map (fun c => pyTake 2000 (get_context_text c)) := by
      simp [List.map_map, Function.comp]
    simp only [generate_embeddings, List.isEmpty_eq_true, if_neg hne, hmap, henc]
  · intro s
    have h : (pyTake 2000 s).length = (s.data.take 2000).length := rfl
    rw [h]
    exact List.length_take_le 2000 s.data

/-- Witness for C6 at a one-chunk batch: the encoder sees exactly the
truncated context text and its answer comes back unchanged. -/
theorem c6_embedding_input_exact_witness :
    generate_embeddings (fun _ => .ok [[(1 : ℚ), 0]])
      [{ id := "chunk_000001", type := "function", name := "authenticate",
         code := "def authenticate(u):\n    return u", file_path := "auth.py",
         start_line := 1, end_line := 2, language := "python",
         docstring := "Check a user.", imports := [] }] = .ok [[(1 : ℚ), 0]] :=
  c6_embedding_input_exact.2.1 (fun _ => .ok [[(1 : ℚ), 0]])
    [{ id := "chunk_000001", type := "function", name := "authenticate",
       code := "def authenticate(u):\n    return u", file_path := "auth.py",
       start_line := 1, end_line := 2, language := "python",
       docstring := "Check a user.", imports := [] }]
    [[(1 : ℚ), 0]] (by decide) rfl

/-- Setting a key makes it readable. -/
theorem dictGet_dictSet_self (d : PyDict) (k v : String) :
    dictGet (dictSet d k v) k = some v := by
  induction d with
  | nil => simp [dictSet, dictGet]
  | cons p rest ih =>
    obtain ⟨k', v'⟩ := p
    by_cases h : k' = k
    · simp [dictSet, h, dictGet]
    · simp [dictSet, h, dictGet, ih]

/-- Setting a key leaves the other keys unchanged. -/
theorem dictGet_dictSet_ne (d : PyDict) (k v k' : String) (h : k' ≠ k) :
    dictGet (dictSet d k v) k' = dictGet d k' := by
  induction d with
  | nil => simp [dictSet, dictGet, Ne.symm h]
  | cons p rest ih =>
    obtain ⟨k0, v0⟩ := p
    by_cases h0 : k0 = k
    · subst h0
      simp [dictSet, dictGet, Ne.symm h]
    · simp only [dictSet, if_neg h0, dictGet]
      by_cases h1 : k0 = k'
      · simp [h1]
      · simp [h1, ih]

/-- Keys absent from the update map keep their old value after
`d.update(u)`. -/
theorem dictGet_dictUpdate_notin (d : PyDict) :
    ∀ (u : PyDict), ∀ k : String, (∀ v, (k, v) ∉ u) →
      dictGet (dictUpdate d u) k = dictGet d k := by
  intro u
  induction u generalizing d with
  | nil => intro k _; simp [dictUpdate]
  | cons p u' ih =>
    intro k hk
    obtain ⟨k0, v0⟩ := p
    have hstep : dictUpdate d ((k0, v0) :: u') = dictUpdate (dictSet d k0 v0) u' := rfl
    rw [hstep, ih (dictSet d k0 v0) k (fun v hv => hk v (List.mem_cons_of_mem _ hv))]
    have hne : k ≠ k0 := by
      intro he
      exact hk v0 (by rw [he]; exact List.mem_cons_self _ _)
    exact dictGet_dictSet_ne d k0 v0 k hne

/-- Keys present in a duplicate-free update map (Python dicts cannot carry
duplicate keys) take the updated value after `d.update(u)`. -/
theorem dictGet_dictUpdate_mem (d : PyDict) :
    ∀ (u : PyDict), ∀ k v : String, (u.map Prod.fst).Nodup → (k, v) ∈ u →
      dictGet (dictUpdate d u) k = some v := by
  intro u
  induction u generalizing d with
  | nil => intro k v _ hm; exact absurd hm (List.not_mem_nil _)
  | cons p u' ih =>
    intro k v hnd hm
    obtain ⟨k0, v0⟩ := p
    have hstep : dictUpdate d ((k0, v0) :: u') = dictUpdate (dictSet d k0 v0) u' := rfl
    rw [hstep]
    rcases List.mem_cons.mp hm with heq | htail
    · obtain ⟨hk, hv⟩ := Prod.mk.inj heq
      subst hk; subst hv
      have hnotin : ∀ v', (k, v') ∉ u' := by
        intro v' hv'
        have : k ∈ u'.map Prod.fst := List.mem_map.mpr ⟨(k, v'), hv', rfl⟩
        simp only [List.map_cons, List.nodup_cons] at hnd
        exact hnd.1 this
      rw [dictGet_dictUpdate_notin (dictSet d k v) u' k hnotin]
      exact dictGet_dictSet_self d k v
    · exact ih (dictSet d k0 v0) k v
        (by simp only [List.map_cons, List.nodup_cons] at hnd; exact hnd.2) htail

/-- A `SETEX` key reads back with its fresh value and TTL. -/
theorem redisGet_redisSetex_self (st : RedisStore) (k : String) (ttl : Nat)
    (v : PyDict) :
    redisGet (redisSetex st k ttl v) k = some { value := v, ttl := ttl } := by
  induction st with
  | nil => simp [redisSetex, redisGet]
  | cons p rest ih =>
    obtain ⟨k0, e0⟩ := p
    by_cases h : k0 = k
    · simp [redisSetex, h, redisGet]
    · simp [redisSetex, h, redisGet, ih]

/-- C7: for an existing session, `update_session` merges the given fields
into the stored record, overwrites `last_activity` with the current time,
and writes the record back with the full configured TTL, regardless of
which fields were merged; for a missing session it fails with
`SessionNotFoundException` (and, the write never having run, stores
nothing). -/
theorem c7_update_session_merge_and_ttl :
    (∀ (store : RedisStore) (ttl : Nat) (now sid : String) (updates : PyDict),
      redisGet store ("session:" ++ sid) = none →
      update_session store ttl now sid updates = .error (.sessionNotFound sid)) ∧
    (∀ (store : RedisStore) (ttl : Nat) (now sid : String) (updates : PyDict)
        (entry : RedisEntry),
      redisGet store ("session:" ++ sid) = some entry →
      (updates.map Prod.fst).Nodup →
      ∃ store', update_session store ttl now sid updates = .ok store' ∧
        ∃ entry', redisGet store' ("session:" ++ sid) = some entry' ∧
          entry'.ttl = ttl ∧
          dictGet entry'.value "last_activity" = some now ∧
          (∀ k v : String, k ≠ "last_activity" → (k, v) ∈ updates →
            dictGet entry'.value k = some v) ∧
          (∀ k : String, k ≠ "last_activity" → (∀ v, (k, v) ∉ updates) →
            dictGet entry'.value k = dictGet entry.value k)) := by
  constructor
  · intro store ttl now sid updates hnone
    simp [update_session, get_session, hnone]
  · intro store ttl now sid updates entry hsome hnd
    refine ⟨redisSetex store ("session:" ++ sid) ttl
      (dictSet (dictUpdate entry.value updates) "last_activity" now), ?_, ?_⟩
    · simp [update_session, get_session, hsome]
    · refine ⟨_, redisGet_redisSetex_self store _ ttl _, rfl, ?_, ?_, ?_⟩
      · exact dictGet_dictSet_self _ _ _
      · intro k v hk hkv
        rw [dictGet_dictSet_ne _ _ _ _ hk]
        exact dictGet_dictUpdate_mem entry.value updates k v hnd hkv
      · intro k hk hnotin
        rw [dictGet_dictSet_ne _ _ _ _ hk]
        exact dictGet_dictUpdate_notin entry.value updates k hnotin

/-- Witness for C7 at a one-session store: merging `status := ready`
refreshes `last_activity`, resets the TTL, keeps unrelated fields, and
overrides the merged one. -/
theorem c7_update_session_merge_and_ttl_witness :
    ∃ store', update_session
      [("session:abc",
        { value := [("session_id", "abc"), ("status", "parsing"),
                    ("last_activity", "t0")], ttl := 77 })]
      3600 "t1" "abc" [("status", "ready")] = .ok store' ∧
      ∃ entry', redisGet store' ("session:" ++ "abc") = some entry' ∧
        entry'.ttl = 3600 ∧
        dictGet entry'.value "last_activity" = some "t1" ∧
        (∀ k v : String, k ≠ "last_activity" → (k, v) ∈ [("status", "ready")] →
          dictGet entry'.value k = some v) ∧
        (∀ k : String, k ≠ "last_activity" →
          (∀ v, (k, v) ∉ [("status", "ready")]) →
          dictGet entry'.value k = dictGet
            [("session_id", "abc"), ("status", "parsing"),
             ("last_activity", "t0")] k) :=
  c7_update_session_merge_and_ttl.2
    [("session:abc",
      { value := [("session_id", "abc"), ("status", "parsing"),
                  ("last_activity", "t0")], ttl := 77 })]
    3600 "t1" "abc" [("status", "ready")]
    { value := [("session_id", "abc"), ("status", "parsing"),
                ("last_activity", "t0")], ttl := 77 }
    (by decide) (by decide)

/-- The top-k query result is ordered by ascending distance to the query
vector. -/
theorem chromaQuery_sorted (col : ChromaCollection) (q : Vec) (k : Nat) :
    (chromaQuery col q k).Pairwise
      (fun a b => sqDist a.embedding q ≤ sqDist b.embedding q) := by
  unfold chromaQuery
  haveI : IsTotal ChromaEntry
      (fun a b => sqDist a.embedding q ≤ sqDist b.embedding q) :=
    ⟨fun a b => le_total _ _⟩
  haveI : IsTrans ChromaEntry
      (fun a b => sqDist a.embedding q ≤ sqDist b.embedding q) :=
    ⟨fun a b c hab hbc => le_trans hab hbc⟩
  exact (List.sorted_insertionSort _ col.entries).sublist
    (List.take_sublist _ _)

/-- C8: `search_similar` on a session whose collection does not exist
fails with a `VectorDBException` rather than returning an empty result
list; on an existing collection it returns up to `top_k` results ordered
by ascending distance. -/
theorem c8_search_missing_collection_fails :
    (∀ (st : ChromaState) (sid : String) (q : Vec) (k : Nat),
      chromaGet st ("session_" ++ sid) = none →
      search_similar st sid q k = .error (.vectorDBException
        ("Failed to search: Collection " ++ ("session_" ++ sid) ++
          " does not exist."))) ∧
    (∀ (st : ChromaState) (sid : String) (q : Vec) (k : Nat)
        (col : ChromaCollection),
      chromaGet st ("session_" ++ sid) = some col →
      ∃ res, search_similar st sid q k = .ok res ∧
        res.length ≤ k ∧
        res.Pairwise (fun a b => a.distance ≤ b.distance)) := by
  constructor
  · intro st sid q k hnone
    simp [search_similar, hnone]
  · intro st sid q k col hsome
    refine ⟨(chromaQuery col q k).map (fun e =>
      { id := e.entryId, code := e.document, metadata := e.metadata,
        distance := sqDist e.embedding q }), ?_, ?_, ?_⟩
    · simp [search_similar, hsome]
    · simp only [List.length_map]
      exact le_trans (List.length_take_le _ _) (le_refl k)
    · rw [List.pairwise_map]
      exact chromaQuery_sorted col q k

/-- Witness for C8: an empty client raises on a never-indexed session, and
a two-entry collection returns results in ascending-distance order. -/
theorem c8_search_missing_collection_fails_witness :
    (search_similar [] "ghost" [(1 : ℚ)] 5 = .error (.vectorDBException
      ("Failed to search: Collection " ++ ("session_" ++ "ghost") ++
        " does not exist."))) ∧
    (∃ res, search_similar
      [("session_s",
        { session_id := "s", entries :=
          [{ entryId := "chunk_000001", document := "def g(): pass",
             metadata := { file_path := "g.py", type := "function", name := "g",
                           language := "python", lines := "1-1", docstring := "" },
             embedding := [(3 : ℚ)] },
           { entryId := "chunk_000002", document := "def h(): pass",
             metadata := { file_path := "h.py", type := "function", name := "h",
                           language := "python", lines := "1-1", docstring := "" },
             embedding := [(1 : ℚ)] }] })]
      "s" [(0 : ℚ)] 2 = .ok res ∧
      res.length ≤ 2 ∧
      res.Pairwise (fun a b => a.distance ≤ b.distance)) :=
  ⟨c8_search_missing_collection_fails.1 [] "ghost" [(1 : ℚ)] 5 rfl,
   c8_search_missing_collection_fails.2
     [("session_s",
       { session_id := "s", entries :=
         [{ entryId := "chunk_000001", document := "def g(): pass",
            metadata := { file_path := "g.py", type := "function", name := "g",
                          language := "python", lines := "1-1", docstring := "" },
            embedding := [(3 : ℚ)] },
          { entryId := "chunk_000002", document := "def h(): pass",
            metadata := { file_path := "h.py", type := "function", name := "h",
                          language := "python", lines := "1-1", docstring := "" },
            embedding := [(1 : ℚ)] }] })]
     "s" [(0 : ℚ)] 2 _ rfl⟩

/-- A freshly set collection reads back. -/
theorem chromaGet_chromaSet_self (st : ChromaState) (nm : String)
    (c : ChromaCollection) : chromaGet (chromaSet st nm c) nm = some c := by
  induction st with
  | nil => simp [chromaSet, chromaGet]
  | cons p rest ih =>
    obtain ⟨k, c0⟩ := p
    by_cases h : k = nm
    · simp [chromaSet, h, chromaGet]
    · simp [chromaSet, h, chromaGet, ih]

/-- `create_collection` leaves the session's collection present and
empty. -/
theorem chromaGet_create_collection (st : ChromaState) (sid : String) :
    chromaGet (create_collection st sid) ("session_" ++ sid) =
      some { session_id := sid, entries := [] } := by
  unfold create_collection
  exact chromaGet_chromaSet_self _ _ _

/-- Zipping four equal-length field lists yields that many records. -/
theorem zipEntries_length :
    ∀ (ids docs : List String) (metas : List ChunkMeta) (embs : List Vec),
      ids.length = docs.length → ids.length = metas.length →
      ids.length = embs.length →
      (zipEntries ids docs metas embs).length = ids.length := by
  intro ids
  induction ids with
  | nil =>
    intro docs metas embs h1 h2 h3
    cases docs <;> cases metas <;> cases embs <;> simp_all [zipEntries]
  | cons i rest ih =>
    intro docs metas embs h1 h2 h3
    cases docs with
    | nil => simp at h1
    | cons d ds =>
      cases metas with
      | nil => simp at h2
      | cons m ms =>
        cases embs with
        | nil => simp at h3
        | cons e es =>
          simp only [zipEntries, List.length_cons] at h1 h2 h3 ⊢
          rw [ih ds ms es (by omega) (by omega) (by omega)]

/-- A single positive batch index list for at most one batch of data. -/
theorem pyRangeStep_single (n : Nat) (h0 : 0 < n) (h1 : n ≤ 1000) :
    pyRangeStep n 1000 = [0] := by
  unfold pyRangeStep
  rw [if_neg (by omega)]
  have : (n + 1000 - 1) / 1000 = 1 :=
    Nat.div_eq_of_lt_le (by omega) (by omega)
  rw [this]
  rfl

/-- C4 is refuted in the scenario it cites: a failing embedding generation
happens before the collection is created, so it aborts the ingest with the
vector store untouched — no "already-created empty collection" exists in
that case (the state is returned unchanged, and on an initially empty
client the collection is absent after the failure). -/
theorem c4_counterexample_embed_fail_no_collection :
    index_codebase (fun _ => .error (.pyError "model crashed")) [] "s1"
      [{ id := "chunk_000001", type := "module", name := "app",
         code := "import os", file_path := "app.py", start_line := 1,
         end_line := 1, language := "python", docstring := "",
         imports := [] }] =
      ([], .error (.embeddingException
        "Failed to generate embeddings: model crashed")) ∧
    chromaGet (index_codebase (fun _ => .error (.pyError "model crashed")) [] "s1"
      [{ id := "chunk_000001", type := "module", name := "app",
         code := "import os", file_path := "app.py", start_line := 1,
         end_line := 1, language := "python", docstring := "",
         imports := [] }]).1 ("session_" ++ "s1") = none := by
  constructor <;> decide


/-- Evaluation of `insert_embeddings` on a freshly created collection with
at most one batch of data: matching lengths insert everything, mismatched
lengths fail the Chroma length validation and leave the empty collection
as it was. -/
theorem insert_embeddings_create_small (st : ChromaState) (sid : String)
    (chunks : List CodeChunk) (embs : List Vec)
    (hc : chunks.length ≤ 1000) (he : embs.length ≤ 1000)
    (hpos : chunks ≠ []) :
    insert_embeddings (create_collection st sid) sid chunks embs =
      if embs.length = chunks.length then
        (chromaSet (create_collection st sid) ("session_" ++ sid)
          { session_id := sid,
            entries := zipEntries (chunks.map (fun c => c.id))
              (chunks.map (fun c => c.code)) (chunks.map chunkMeta) embs }, .ok ())
      else
        (chromaSet (create_collection st sid) ("session_" ++ sid)
          { session_id := sid, entries := [] },
         .error (.vectorDBException ("Failed to insert embeddings: " ++
          "Unequal lengths for fields: ids, embeddings, metadatas, documents"))) := by
  have hlen : 0 < chunks.length := List.length_pos.mpr hpos
  have hrange : pyRangeStep (chunks.map (fun c => c.id)).length 1000 = [0] := by
    rw [List.length_map]
    exact pyRangeStep_single _ hlen hc
  have hslice : ∀ {α : Type} (l : List α), l.length ≤ 1000 →
      pySlice l 0 (0 + 1000) = l := by
    intro α l hl
    simp [pySlice, List.take_of_length_le hl]
  have hids : pySlice (chunks.map (fun c => c.id)) 0 (0 + 1000) =
      chunks.map (fun c => c.id) :=
    hslice _ (by rw [List.length_map]; exact hc)
  have hdocs : pySlice (chunks.map (fun c => c.code)) 0 (0 + 1000) =
      chunks.map (fun c => c.code) :=
    hslice _ (by rw [List.length_map]; exact hc)
  have hmetas : pySlice (chunks.map chunkMeta) 0 (0 + 1000) =
      chunks.map chunkMeta :=
    hslice _ (by rw [List.length_map]; exact hc)
  have hembs : pySlice embs 0 (0 + 1000) = embs := hslice _ he
  simp only [insert_embeddings, chromaGet_create_collection, hrange,
    addBatches, hids, hdocs, hmetas, hembs]
  by_cases heq : embs.length = chunks.length
  · rw [if_pos heq]
    have hadd : chromaAdd { session_id := sid, entries := [] }
        (chunks.map (fun c => c.id)) (chunks.map (fun c => c.code))
        (chunks.map chunkMeta) embs =
        .ok { session_id := sid,
              entries := zipEntries (chunks.map (fun c => c.id))
                (chunks.map (fun c => c.code)) (chunks.map chunkMeta) embs } := by
      unfold chromaAdd
      rw [if_pos (by simp [heq])]
      simp
    rw [hadd]
  · rw [if_neg heq]
    have hadd : chromaAdd { session_id := sid, entries := [] }
        (chunks.map (fun c => c.id)) (chunks.map (fun c => c.code))
        (chunks.map chunkMeta) embs =
        .error (.pyError
          "Unequal lengths for fields: ids, embeddings, metadatas, documents") := by
      unfold chromaAdd
      rw [if_neg]
      intro hcon
      exact heq (by simp at hcon; omega)
    rw [hadd]
    rfl

/-- C4 (amended): `index_codebase` embeds all chunks in one batch, then
creates the session's collection, then inserts all embeddings, and any
failure aborts the whole ingest; an embedding failure occurs before
collection creation and leaves the vector store untouched, while an
insertion failure after creation leaves the already-created collection in
place (empty) rather than rolled back.  (Insertion statements are given
for single-batch sizes, ≤ 1000 chunks.) -/
theorem c4_index_orchestration :
    (∀ (encode : Encoder) (st : ChromaState) (sid : String)
        (chunks : List CodeChunk) (e : PyExc),
      generate_embeddings encode chunks = .error e →
      index_codebase encode st sid chunks = (st, .error e)) ∧
    (∀ (encode : Encoder) (st : ChromaState) (sid : String)
        (chunks : List CodeChunk) (embs : List Vec),
      generate_embeddings encode chunks = .ok embs →
      embs.length = chunks.length → chunks.length ≤ 1000 →
      ∃ col, index_codebase encode st sid chunks =
        (chromaSet (create_collection st sid) ("session_" ++ sid) col,
         .ok { session_id := sid, chunks_indexed := chunks.length,
               embeddings_generated := embs.length, status := "success" }) ∧
        col.entries.length = chunks.length) ∧
    (∀ (encode : Encoder) (st : ChromaState) (sid : String)
        (chunks : List CodeChunk) (embs : List Vec),
      generate_embeddings encode chunks = .ok embs →
      embs.length ≠ chunks.length → embs.length ≤ 1000 →
      chunks.length ≤ 1000 → chunks ≠ [] →
      index_codebase encode st sid chunks =
        (chromaSet (create_collection st sid) ("session_" ++ sid)
          { session_id := sid, entries := [] },
         .error (.vectorDBException ("Failed to insert embeddings: " ++
          "Unequal lengths for fields: ids, embeddings, metadatas, documents"))) ∧
      chromaGet (index_codebase encode st sid chunks).1 ("session_" ++ sid) =
        some { session_id := sid, entries := [] }) := by
  refine ⟨?_, ?_, ?_⟩
  · intro encode st sid chunks e he
    simp [index_codebase, he]
  · intro encode st sid chunks embs hok hlen hle
    by_cases hz : chunks = []
    · subst hz
      have hembs : embs = [] := List.length_eq_zero.mp (by simpa using hlen)
      subst hembs
      refine ⟨{ session_id := sid, entries := [] }, ?_, rfl⟩
      simp only [index_codebase, hok, insert_embeddings,
        chromaGet_create_collection, List.map_nil, List.length_nil,
        pyRangeStep, addBatches]
    · refine ⟨{ session_id := sid,
                entries := zipEntries (chunks.map (fun c => c.id))
                  (chunks.map (fun c => c.code)) (chunks.map chunkMeta) embs },
        ?_, ?_⟩
      · simp only [index_codebase, hok,
          insert_embeddings_create_small st sid chunks embs hle
            (by omega) hz, if_pos hlen]
      · rw [zipEntries_length] <;> simp [hlen]
  · intro encode st sid chunks embs hok hne hle1 hle2 hnil
    have hmain : index_codebase encode st sid chunks =
        (chromaSet (create_collection st sid) ("session_" ++ sid)
          { session_id := sid, entries := [] },
         .error (.vectorDBException ("Failed to insert embeddings: " ++
          "Unequal lengths for fields: ids, embeddings, metadatas, documents"))) := by
      simp only [index_codebase, hok,
        insert_embeddings_create_small st sid chunks embs hle2 hle1 hnil,
        if_neg hne]
    refine ⟨hmain, ?_⟩
    rw [hmain]
    exact chromaGet_chromaSet_self _ _ _

/-- Witness for the amended C4: on an empty client, indexing one chunk
with a one-vector embedding batch succeeds and stores one record, while a
mismatched embedding batch fails the insert but leaves the created empty
collection in the state. -/
theorem c4_index_orchestration_witness :
    (∃ col, index_codebase (fun _ => .ok [[(1 : ℚ), 0]]) [] "s1"
      [{ id := "chunk_000001", type := "module", name := "app",
         code := "import os", file_path := "app.py", start_line := 1,
         end_line := 1, language := "python", docstring := "",
         imports := [] }] =
        (chromaSet (create_collection [] "s1") ("session_" ++ "s1") col,
         .ok { session_id := "s1", chunks_indexed := 1,
               embeddings_generated := 1, status := "success" }) ∧
      col.entries.length = 1) ∧
    chromaGet (index_codebase (fun _ => .ok []) [] "s1"
      [{ id := "chunk_000001", type := "module", name := "app",
         code := "import os", file_path := "app.py", start_line := 1,
         end_line := 1, language := "python", docstring := "",
         imports := [] }]).1 ("session_" ++ "s1") =
      some { session_id := "s1", entries := [] } :=
  ⟨c4_index_orchestration.2.1 (fun _ => .ok [[(1 : ℚ), 0]]) [] "s1"
    [{ id := "chunk_000001", type := "module", name := "app",
       code := "import os", file_path := "app.py", start_line := 1,
       end_line := 1, language := "python", docstring := "",
       imports := [] }] [[(1 : ℚ), 0]] (by decide) (by decide) (by decide),
   (c4_index_orchestration.2.2 (fun _ => .ok []) [] "s1"
    [{ id := "chunk_000001", type := "module", name := "app",
       code := "import os", file_path := "app.py", start_line := 1,
       end_line := 1, language := "python", docstring := "",
       imports := [] }] [] (by decide) (by decide) (by decide) (by decide)
    (by decide)).2⟩

/-- A sum of squares is non-negative. -/
theorem normSq_nonneg (v : List ℝ) : 0 ≤ normSq v := by
  induction v with
  | nil => simp [normSq]
  | cons x rest ih =>
    have hx : 0 ≤ x * x := mul_self_nonneg x
    simp only [normSq, List.map_cons, List.sum_cons]
    have : normSq rest = (rest.map (fun y => y * y)).sum := rfl
    rw [this] at ih
    linarith

/-- A sum of squares vanishes exactly on the zero vector. -/
theorem normSq_eq_zero_iff (v : List ℝ) : normSq v = 0 ↔ ∀ x ∈ v, x = 0 := by
  induction v with
  | nil => simp [normSq]
  | cons x rest ih =>
    have hx : 0 ≤ x * x := mul_self_nonneg x
    have hrest : 0 ≤ normSq rest := normSq_nonneg rest
    constructor
    · intro h
      have hsum : x * x + normSq rest = 0 := by
        simpa [normSq, List.map_cons, List.sum_cons] using h
      obtain ⟨h1, h2⟩ := (add_eq_zero_iff_of_nonneg hx hrest).mp hsum
      intro y hy
      rcases List.mem_cons.mp hy with rfl | hmem
      · exact mul_self_eq_zero.mp h1
      · exact ih.mp h2 y hmem
    · intro h
      have hx0 : x = 0 := h x (List.mem_cons_self x rest)
      have hr : normSq rest = 0 :=
        ih.mpr (fun y hy => h y (List.mem_cons_of_mem x hy))
      simp [normSq, List.map_cons, List.sum_cons, hx0]
      simpa [normSq] using hr

/-- A vector with a nonzero entry has positive squared norm. -/
theorem normSq_pos (v : List ℝ) (h : ∃ x ∈ v, x ≠ 0) : 0 < normSq v := by
  rcases h with ⟨x, hx, hx0⟩
  rcases lt_or_eq_of_le (normSq_nonneg v) with hlt | heq
  · exact hlt
  · exact absurd ((normSq_eq_zero_iff v).mp heq.symm x hx) hx0

/-- Dividing every entry by a constant divides the squared norm by its
square (also when the constant is zero, both sides collapsing to zero in
real-division semantics). -/
theorem normSq_map_div (v : List ℝ) (c : ℝ) :
    normSq (v.map (fun x => x / c)) = normSq v / (c * c) := by
  induction v with
  | nil => simp [normSq]
  | cons x rest ih =>
    simp only [normSq, List.map_cons, List.sum_cons] at ih ⊢
    rw [ih, div_mul_div_comm, div_add_div_same]

/-- C10: `normalize_embeddings` and `cosine_similarity` divide by the
Euclidean norm of their inputs with no guard: the norm vanishes exactly on
the zero vector, so the division-by-zero branch is reachable there
(concretely at `[0, 0, 0]`, whose "normalized" form is not unit length);
under the precondition that the inputs have a nonzero entry, the
normalized vector is unit length and the similarity denominator is
nonzero, making the similarity value well-defined. -/
theorem c10_norm_guard :
    (∀ v : List ℝ, pyNorm v = 0 ↔ ∀ x ∈ v, x = 0) ∧
    (∀ v : List ℝ, (∃ x ∈ v, x ≠ 0) → normSq (normalizeVec v) = 1) ∧
    (∀ a b : List ℝ, (∃ x ∈ a, x ≠ 0) → (∃ y ∈ b, y ≠ 0) →
      pyNorm a * pyNorm b ≠ 0 ∧
      cosine_similarity a b * (pyNorm a * pyNorm b) = dotR a b) ∧
    (pyNorm [(0 : ℝ), 0, 0] = 0 ∧
      normSq (normalizeVec [(0 : ℝ), 0, 0]) = 0) := by
  have hnormpos : ∀ v : List ℝ, (∃ x ∈ v, x ≠ 0) → 0 < pyNorm v := by
    intro v hv
    exact Real.sqrt_pos.mpr (normSq_pos v hv)
  refine ⟨?_, ?_, ?_, ?_, ?_⟩
  · intro v
    rw [pyNorm, Real.sqrt_eq_zero (normSq_nonneg v)]
    exact normSq_eq_zero_iff v
  · intro v hv
    unfold normalizeVec
    rw [normSq_map_div]
    rw [show pyNorm v * pyNorm v = normSq v from
      Real.mul_self_sqrt (normSq_nonneg v)]
    exact div_self (ne_of_gt (normSq_pos v hv))
  · intro a b ha hb
    have hne : pyNorm a * pyNorm b ≠ 0 :=
      ne_of_gt (mul_pos (hnormpos a ha) (hnormpos b hb))
    exact ⟨hne, div_mul_cancel₀ _ hne⟩
  · show Real.sqrt (normSq [(0 : ℝ), 0, 0]) = 0
    have : normSq [(0 : ℝ), 0, 0] = 0 := by simp [normSq]
    rw [this, Real.sqrt_zero]
  · unfold normalizeVec
    rw [normSq_map_div]
    simp [normSq]

/-- Witness for C10 at the vector `[3, 4]`: its normalization is exactly
unit length. -/
theorem c10_norm_guard_witness :
    normSq (normalizeVec [(3 : ℝ), 4]) = 1 :=
  c10_norm_guard.2.1 [(3 : ℝ), 4] ⟨3, by simp, by norm_num⟩

end CodeRAG
